import Mathlib

/-!
Shallow embedding of the music-voice pipeline of `src/renderer/music.rs`
(structs `MusicParams`, `SharedState`, `MusicCommand`, `MusicRenderer`,
`Music`, and the `Renderer` impl), together with the external collaborators
the renderer uses (`Frame`, `AudioClip`, the SPSC command ring buffer and the
`Arc`/`Weak` shared-status allocation), which are not part of `src/` and are
therefore modelled from the spec.

Modelling conventions:
- Rust `i16`/`i32` arithmetic is embedded as `Int` with explicit two's
  complement wrapping (`wrap16`/`wrap32`), matching release-profile wrapping
  overflow; `usize` is `Nat` reduced mod `2^64`; `u32` is `Nat` below `2^32`.
- Rust integer division panics on a zero divisor and on `MIN / -1`; such
  steps are embedded as `Except.error ()` (a panic aborts the call, so no
  successor state is produced).
- The `f64` values `delta` and the accumulated `position` of
  `render_mono`/`render_stereo` are embedded at two levels.  The faithful
  model (`roundF64`, `f64delta`, `renderRunF`, `render_monoF`,
  `publishPosF`) carries every float as a rational and applies IEEE
  binary64 round-to-nearest-even after each operation: `1.0 / R`, the
  product with the playback rate, the starting `index as f64 * delta`
  and every `position += delta` all round — so, for instance,
  `(1.0 / 49.0) * 49.0` is `1 - 2⁻⁵³` and truncates to 0 under `as i16`.
  The idealized model (`deltaI16`, `posI16`, `renderRun`, `render_mono`)
  replaces the accumulator by the exact rational
  `m * playback_rate / sample_rate`; it is used only where the floats
  involved round exactly, or where only robust facts (such as a delta
  below one truncating to 0) are relied on.  The float-to-`i16` casts are
  saturating truncation toward zero in both models.  The `f32` rescale
  factor of `prepare` is round half away from zero (`roundHalfAwayDiv`).
- The `Music`/`MusicRenderer` pair shares one allocation graph (command ring
  buffer, shared status block, `Arc`/`Weak`); the embedding fuses the pair
  into a single `Voice` record, with `alive` standing for the strong
  reference count of the `Arc` being nonzero.
-/

set_option maxRecDepth 4000

namespace Sasa

/-- Two's complement wrap of an integer into the `i16` range. -/
def wrap16 (n : Int) : Int := (n + 32768) % 65536 - 32768

/-- Two's complement wrap of an integer into the `i32` range. -/
def wrap32 (n : Int) : Int := (n + 2147483648) % 4294967296 - 2147483648

/-- Number of `usize` values (the renderer index is a 64-bit `usize`). -/
def USIZE : Nat := 18446744073709551616

/-- Rust `as usize` cast of an `i16` value: sign extension, i.e. reduction
of the two's complement value modulo `2^64`. -/
def usizeOfI16 (n : Int) : Nat := (n % (USIZE : Int)).toNat

/-- Rust `as u32` cast of an `i16` value: reduction modulo `2^32`. -/
def u32OfI16 (n : Int) : Nat := (n % (4294967296 : Int)).toNat

/-- Saturation to the `i16` range, the behaviour of Rust float-to-`i16`
casts on out-of-range values. -/
def satI16 (n : Int) : Int := max (-32768) (min 32767 n)

/-- Saturation to the `i32` range, the behaviour of Rust float-to-`i32`
casts on out-of-range values. -/
def sat32 (n : Int) : Int := max (-2147483648) (min 2147483647 n)

/-- Rust `i16` division `a / b`: truncation toward zero; panics (error) on a
zero divisor or on the overflowing `-32768 / -1`. -/
def i16div (a b : Int) : Except Unit Int :=
  if b = 0 ∨ (a = -32768 ∧ b = -1) then .error () else .ok (a.tdiv b)

/-- The `f64` per-sample increment `1.0 / sample_rate * playback_rate` cast
by `as i16`, idealized: exact truncation of the rational `P / R`,
saturating; for `R = 0` the float is `±inf` (or `NaN` for `P = 0`).  The
IEEE-rounded value is `f64delta` below; the two truncations can differ
(e.g. at `P = R = 49`). -/
def deltaI16 (P : Int) (R : Nat) : Int :=
  if R = 0 then (if P = 0 then 0 else if P > 0 then 32767 else -32768)
  else satI16 (P.tdiv R)

/-- The accumulated `f64` position after `m` per-sample increments,
`m * delta`, cast by `as i16`, idealized: exact truncation of `m * P / R`,
saturating; for `R = 0` the float is `±inf` (or `NaN` when the product is
`0 * inf`).  The IEEE-rounded accumulator is carried by `renderRunF`
below; the truncations coincide exactly when every accumulated float is
representable (the regimes the idealized lemmas are applied in). -/
def posI16 (m : Nat) (P : Int) (R : Nat) : Int :=
  if R = 0 then (if m = 0 ∨ P = 0 then 0 else if P > 0 then 32767 else -32768)
  else satI16 ((m * P).tdiv R)

/-- Round half away from zero of the rational `a / b` (for `b > 0`), the
rounding of Rust `f32::round`; used only by the rate-adaptation rescale. -/
def roundHalfAwayDiv (a : Int) (b : Nat) : Int :=
  if a ≥ 0 then (2 * a + b) / (2 * b) else -((2 * (-a) + b) / (2 * b))

/-- Fuel-based (structurally recursive, hence kernel-reducible) binary
logarithm: `log2fuel fuel n = ⌊log₂ n⌋` whenever `1 ≤ n ≤ fuel`. -/
def log2fuel : Nat → Nat → Nat
  | 0, _ => 0
  | fuel + 1, n => if n ≤ 1 then 0 else log2fuel fuel (n / 2) + 1

/-- `⌊log₂ n⌋` (0 at 0). -/
def natLog2 (n : Nat) : Nat := log2fuel n n

/-- Kernel-reducible embedding of an integer into `ℚ` (the instance-path
`Int.cast` does not reduce in the kernel); provably the cast. -/
def qOfInt (n : Int) : ℚ := mkRat n 1

/-- Kernel-reducible embedding of a natural into `ℚ`. -/
def qOfNat (n : Nat) : ℚ := qOfInt (Int.ofNat n)

/-- Kernel-reducible rational addition (`Rat.add` is `@[irreducible]` and
blocks kernel evaluation); provably equal to `+`. -/
def qadd (a b : ℚ) : ℚ := mkRat (a.num * b.den + b.num * a.den) (a.den * b.den)

/-- Kernel-reducible rational multiplication; provably equal to `*`. -/
def qmul (a b : ℚ) : ℚ := mkRat (a.num * b.num) (a.den * b.den)

/-- Kernel-reducible rational subtraction; provably equal to `-`. -/
def qsub (a b : ℚ) : ℚ := mkRat (a.num * b.den - b.num * a.den) (a.den * b.den)

/-- Floor of a rational as an integer, kernel-reducible. -/
def floorQ (q : ℚ) : Int := q.num / (q.den : Int)

/-- `(2 : ℚ) ^ k` for an integer exponent, via kernel-friendly `Nat`
powers and `mkRat`. -/
def pow2 (k : Int) : ℚ :=
  if 0 ≤ k then qOfNat (2 ^ k.toNat) else mkRat 1 (2 ^ (-k).toNat)

/-- Round a rational to the nearest integer, ties to the even integer. -/
def roundNearestEvenInt (x : ℚ) : Int :=
  if qsub x (qOfInt (floorQ x)) < mkRat 1 2 then floorQ x
  else if mkRat 1 2 < qsub x (qOfInt (floorQ x)) then floorQ x + 1
  else if floorQ x % 2 = 0 then floorQ x else floorQ x + 1

/-- The binade exponent `⌊log₂ |q|⌋` of a nonzero rational: the naive
difference of the numerator and denominator logarithms, corrected down by
one when the value falls below that power of two. -/
def ratExp (q : ℚ) : Int :=
  if pow2 ((natLog2 q.num.natAbs : Int) - (natLog2 q.den : Int)) ≤ |q|
  then (natLog2 q.num.natAbs : Int) - (natLog2 q.den : Int)
  else (natLog2 q.num.natAbs : Int) - (natLog2 q.den : Int) - 1

/-- IEEE `binary64` rounding (round to nearest, ties to even) of a
rational: snap to the 53-bit significand grid of the value's binade (the
division by the grid step `2 ^ (e - 52)` is written as the exact
multiplication by `2 ^ (52 - e)`).  Valid on the normal range; every `f64`
arising in the claims below is normal or zero (no overflow, underflow or
NaN). -/
def roundF64 (q : ℚ) : ℚ :=
  if q = 0 then 0
  else qmul (pow2 (ratExp q - 52))
    (qOfInt (roundNearestEvenInt (qmul q (pow2 (52 - ratExp q)))))

/-- Truncation toward zero of a rational: the rounding direction of the
Rust float-to-integer `as` casts (before saturation). -/
def ratTrunc (q : ℚ) : Int := q.num.tdiv (q.den : Int)

/-- The `f64` value `delta = 1. / sample_rate as f64 * playback_rate as
f64` of the render entry points, with both the division and the product
rounded (the operands `sample_rate as f64` and `playback_rate as f64` are
exact: they are below `2^32`; the quotient `1.0 / R` is the exact rational
`mkRat 1 R` before rounding).  Meaningful for `sample_rate ≥ 1`; a zero
destination rate makes the float infinite and is outside every claim. -/
def f64delta (P : Int) (R : Nat) : ℚ :=
  roundF64 (qmul (roundF64 (mkRat 1 R)) (qOfInt P))

/-- Modelled from the spec: `Frame` (crate root, not under `src/`) is a
stereo pair of 16-bit signed amplitudes with elementwise addition and
scalar multiplication, mono averaging and a silent default. -/
structure Frame where
  l : Int
  r : Int
deriving DecidableEq

/-- Modelled from the spec: elementwise `Frame` addition (mixing). -/
def Frame.add (f g : Frame) : Frame := ⟨wrap16 (f.l + g.l), wrap16 (f.r + g.r)⟩

/-- Modelled from the spec: `Frame` scalar multiplication (gain). -/
def Frame.mulScalar (f : Frame) (a : Int) : Frame :=
  ⟨wrap16 (f.l * a), wrap16 (f.r * a)⟩

/-- Modelled from the spec: mono downmix, the average of the two channels. -/
def Frame.avg (f : Frame) : Int := (wrap16 (f.l + f.r)).tdiv 2

/-- Modelled from the spec: the silence default `Frame(0, 0)`. -/
def Frame.silence : Frame := ⟨0, 0⟩

/-- Modelled from the spec: an `AudioClip` (external subsystem) exposes
`sample(position) -> optional Frame` and `length()`; a sample is present
exactly at the in-range tick positions `0 ≤ position < length`. -/
structure AudioClip where
  length : Nat
  data : Int → Frame

/-- Modelled from the spec: the clip query, present exactly in range. -/
def AudioClip.sample (c : AudioClip) (p : Int) : Option Frame :=
  if 0 ≤ p ∧ p < (c.length : Int) then some (c.data p) else none

/-- `MusicParams` of `music.rs`: `i16` fields held as `Int`, plus the
command ring capacity. -/
structure MusicParams where
  loop_mix_time : Int
  amplifier : Int
  playback_rate : Int
  command_buffer_size : Nat
deriving DecidableEq

/-- `MusicParams::default()`. -/
def MusicParams.default : MusicParams :=
  { loop_mix_time := -1, amplifier := 1, playback_rate := 1,
    command_buffer_size := 16 }

/-- `SharedState` of `music.rs`: the atomically shared status block.  The
position atomic stores a `u32` bit pattern (written by the renderer as an
integer tick value, read back by `Music::position` through
`f32::from_bits`). -/
structure SharedState where
  position : Nat
  paused : Bool
deriving DecidableEq

/-- `SharedState::default()`. -/
def SharedState.default : SharedState := { position := 0, paused := true }

/-- `MusicCommand` of `music.rs`. -/
inductive MusicCommand where
  | Pause
  | Resume
  | SetAmplifier (amp : Int)
  | SeekTo (pos : Int)
  | SetLowPass (lp : Int)
  | FadeIn (time : Int)
  | FadeOut (time : Int)
deriving DecidableEq

/-- The fused state of one voice: the `MusicRenderer` fields of `music.rs`
together with the allocations both halves share — the SPSC command ring
(`queue`, capacity fixed at creation), the `SharedState` block, and the
`Arc`/`Weak` liveness flag (`alive` = the control handle still owns the
block). -/
structure Voice where
  clip : AudioClip
  settings : MusicParams
  shared : SharedState
  alive : Bool
  queue : List MusicCommand
  capacity : Nat
  paused : Bool
  index : Nat
  last_sample_rate : Nat
  low_pass : Int
  last_output : Frame
  fade_time : Int
  fade_current : Int

/-- Set the local pause flag and, when the shared block is still owned
(`Weak::upgrade` succeeds), the shared pause flag — the store pattern of
`prepare` (Pause/Resume/FadeIn) and of the fade-out completion in `frame`. -/
def setPausedBoth (v : Voice) (b : Bool) : Voice :=
  let v1 := { v with paused := b }
  if v1.alive then { v1 with shared := { v1.shared with paused := b } } else v1

/-- One drained command applied to the renderer state — the match arms of
`MusicRenderer::prepare`.  `SeekTo` performs the `i16` division
`position * sample_rate as i16 / playback_rate` (a possible panic);
`FadeIn`/`FadeOut` compute `time * sample_rate as i16` in `i16` and
sign-extend to `i32`. -/
def applyCommand (rate : Nat) (v : Voice) (c : MusicCommand) : Except Unit Voice :=
  match c with
  | .Pause => .ok (setPausedBoth v true)
  | .Resume => .ok (setPausedBoth v false)
  | .SetAmplifier a => .ok { v with settings := { v.settings with amplifier := a } }
  | .SeekTo t =>
      match i16div (wrap16 (t * wrap16 rate)) v.settings.playback_rate with
      | .error e => .error e
      | .ok q => .ok { v with index := usizeOfI16 q }
  | .SetLowPass l => .ok { v with low_pass := l }
  | .FadeIn t =>
      let v1 := if v.paused then setPausedBoth v false else v
      .ok { v1 with fade_time := wrap16 (t * wrap16 rate), fade_current := 0 }
  | .FadeOut t =>
      .ok { v with fade_time := wrap16 (wrap16 (-t) * wrap16 rate), fade_current := 0 }

/-- The rate-adaptation head of `MusicRenderer::prepare`: when the incoming
destination rate differs from the last seen one, rescale the index and both
fade fields by `new / old` with `f32` rounding (round half away from zero),
casting back with the saturating float casts. -/
def rateAdapt (v : Voice) (rate : Nat) : Voice :=
  if v.last_sample_rate = rate then v
  else if v.last_sample_rate = 0 then
    { v with
      index := if v.index = 0 then 0 else USIZE - 1,
      fade_time := if v.fade_time = 0 then 0
        else if v.fade_time > 0 then 2147483647 else -2147483648,
      fade_current := if v.fade_current = 0 then 0
        else if v.fade_current > 0 then 2147483647 else -2147483648,
      last_sample_rate := rate }
  else
    { v with
      index := min (USIZE - 1)
        (roundHalfAwayDiv (v.index * rate) v.last_sample_rate).toNat,
      fade_time := sat32 (roundHalfAwayDiv (v.fade_time * rate) v.last_sample_rate),
      fade_current := sat32 (roundHalfAwayDiv (v.fade_current * rate) v.last_sample_rate),
      last_sample_rate := rate }

/-- The command drain of `MusicRenderer::prepare`: `pop_iter` empties the
ring and each command is applied in FIFO order. -/
def drain (rate : Nat) (v : Voice) : Except Unit Voice :=
  v.queue.foldlM (applyCommand rate) { v with queue := [] }

/-- `MusicRenderer::prepare`: rate adaptation, then the unconditional
command drain. -/
def prepare (v : Voice) (rate : Nat) : Except Unit Voice :=
  drain rate (rateAdapt v rate)

/-- `MusicRenderer::frame`: one per-sample generation step at truncated
tick `position` and truncated per-sample increment `delta`.  Returns
`none` for end-of-stream (and the updated state), `some` for a produced
frame; errors are the embedded division panics. -/
def frame (v : Voice) (position delta : Int) : Except Unit (Option Frame × Voice) :=
  let s := v.settings
  match v.clip.sample position with
  | some f0 =>
      let f1 :=
        if s.loop_mix_time ≥ 0 then
          let pos := wrap16 (wrap16 (position + s.loop_mix_time) - wrap16 v.clip.length)
          if pos ≥ 0 then
            match v.clip.sample pos with
            | some nf => f0.add nf
            | none => f0
          else f0
        else f0
      let v1 : Voice := { v with index := (v.index + 1) % USIZE }
      if v1.fade_time ≠ 0 then
        if v1.fade_time > 0 then
          let fc := wrap32 (v1.fade_current + 1)
          if fc ≥ v1.fade_time then
            .ok (some (f1.mulScalar s.amplifier),
                 { v1 with fade_current := fc, fade_time := 0 })
          else
            match i16div (wrap16 fc) (wrap16 v1.fade_time) with
            | .error e => .error e
            | .ok q =>
                .ok (some (f1.mulScalar (wrap16 (s.amplifier * q))),
                     { v1 with fade_current := fc })
        else
          let fc := wrap32 (v1.fade_current - 1)
          if fc ≤ v1.fade_time then
            .ok (none, setPausedBoth { v1 with fade_current := fc, fade_time := 0 } true)
          else
            match i16div (wrap16 fc) (wrap16 v1.fade_time) with
            | .error e => .error e
            | .ok q =>
                .ok (some (f1.mulScalar (wrap16 (s.amplifier * wrap16 (1 - q)))),
                     { v1 with fade_current := fc })
      else
        .ok (some (f1.mulScalar s.amplifier), v1)
  | none =>
      if s.loop_mix_time ≥ 0 then
        let pos := wrap16 (wrap16 (position - wrap16 v.clip.length) + s.loop_mix_time)
        match i16div pos delta with
        | .error e => .error e
        | .ok q =>
            let v1 : Voice := { v with index := usizeOfI16 q }
            match v.clip.sample pos with
            | some f => .ok (some (f.mulScalar s.amplifier), v1)
            | none => .ok (some Frame.silence, v1)
      else
        .ok (none, { v with paused := true })

/-- `MusicRenderer::update_and_get`: the one-pole filter
`last_output * low_pass + frame * (1 - low_pass)`. -/
def update_and_get (v : Voice) (f : Frame) : Frame × Voice :=
  let out := (v.last_output.mulScalar v.low_pass).add
    (f.mulScalar (wrap16 (1 - v.low_pass)))
  (out, { v with last_output := out })

/-- `MusicRenderer::position`: `self.index as i16 * delta` in `i16`. -/
def rendererPosition (v : Voice) (delta : Int) : Int :=
  wrap16 (wrap16 v.index * delta)

/-- The position publication tail of the render entry points: store
`position(delta as i16) as u32` into the shared block when it is still
owned. -/
def publishPos (v : Voice) (P : Int) (R : Nat) : Voice :=
  if v.alive then
    { v with shared :=
        { v.shared with position := u32OfI16 (rendererPosition v (deltaI16 P R)) } }
  else v

/-- The mono generation loop of `render_mono`: walk the output buffer,
produce one frame per slot adding `update_and_get(frame).avg()` into it
(with `i16` wrap), stop on end-of-stream leaving the rest untouched.  `m`
counts the per-sample increments of the `f64` position accumulator (the
accumulated position is `m * P / R`); the third result component counts the
generated samples. -/
def renderRun (P : Int) (R : Nat) :
    Voice → Nat → List Int → Except Unit (Voice × List Int × Nat)
  | v, _, [] => .ok (v, [], 0)
  | v, m, x :: xs =>
      match frame v (posI16 m P R) (deltaI16 P R) with
      | .error e => .error e
      | .ok (none, v1) => .ok (v1, x :: xs, 0)
      | .ok (some f, v1) =>
          let p := update_and_get v1 f
          match renderRun P R p.2 (m + 1) xs with
          | .error e => .error e
          | .ok (vf, rest, n) => .ok (vf, wrap16 (x + p.1.avg) :: rest, n + 1)

/-- `Renderer::render_mono` for the music voice: prepare (drain), skip
everything when paused, otherwise generate into the buffer and publish the
position. -/
def render_mono (v : Voice) (rate : Nat) (data : List Int) :
    Except Unit (Voice × List Int) :=
  match prepare v rate with
  | .error e => .error e
  | .ok v1 =>
      if v1.paused then .ok (v1, data)
      else
        let P := v1.settings.playback_rate
        match renderRun P rate v1 v1.index data with
        | .error e => .error e
        | .ok (v2, out, _) => .ok (publishPos v2 P rate, out)

/-- The stereo generation loop of `render_stereo`: `chunks_exact_mut(2)`
walks interleaved pairs, adds the two filtered channels, leaves a trailing
odd slot untouched. -/
def renderRunStereo (P : Int) (R : Nat) :
    Voice → Nat → List Int → Except Unit (Voice × List Int × Nat)
  | v, _, [] => .ok (v, [], 0)
  | v, _, [x] => .ok (v, [x], 0)
  | v, m, x :: y :: xs =>
      match frame v (posI16 m P R) (deltaI16 P R) with
      | .error e => .error e
      | .ok (none, v1) => .ok (v1, x :: y :: xs, 0)
      | .ok (some f, v1) =>
          let p := update_and_get v1 f
          match renderRunStereo P R p.2 (m + 1) xs with
          | .error e => .error e
          | .ok (vf, rest, n) =>
              .ok (vf, wrap16 (x + p.1.l) :: wrap16 (y + p.1.r) :: rest, n + 1)

/-- `Renderer::render_stereo` for the music voice. -/
def render_stereo (v : Voice) (rate : Nat) (data : List Int) :
    Except Unit (Voice × List Int) :=
  match prepare v rate with
  | .error e => .error e
  | .ok v1 =>
      if v1.paused then .ok (v1, data)
      else
        let P := v1.settings.playback_rate
        match renderRunStereo P rate v1 v1.index data with
        | .error e => .error e
        | .ok (v2, out, _) => .ok (publishPos v2 P rate, out)

/-- `Renderer::alive`: the strong count of the shared block is nonzero. -/
def rendererAlive (v : Voice) : Bool := v.alive

/-- `Music::new`: the factory; fresh shared block (paused, position 0),
ring of the configured capacity, renderer initially paused at index 0 with
`last_sample_rate = 1`. -/
def Music.new (clip : AudioClip) (settings : MusicParams) : Voice :=
  { clip := clip, settings := settings, shared := SharedState.default,
    alive := true, queue := [], capacity := settings.command_buffer_size,
    paused := true, index := 0, last_sample_rate := 1, low_pass := 0,
    last_output := Frame.silence, fade_time := 0, fade_current := 0 }

/-- Modelled from the spec: the producer half of the SPSC ring
(`HeapProducer::push`): non-blocking, enqueues at the tail, fails with the
queue-full error exactly when the ring holds `capacity` elements, leaving
the ring unchanged. -/
def Music.push (v : Voice) (c : MusicCommand) : Except Unit Voice :=
  if v.queue.length < v.capacity then .ok { v with queue := v.queue ++ [c] }
  else .error ()

/-- `Music::play`. -/
def Music.play (v : Voice) : Except Unit Voice := Music.push v .Resume

/-- `Music::pause`. -/
def Music.pauseCmd (v : Voice) : Except Unit Voice := Music.push v .Pause

/-- `Music::paused`: read the shared pause flag. -/
def Music.isPaused (v : Voice) : Bool := v.shared.paused

/-- `Music::set_amplifier`. -/
def Music.set_amplifier (v : Voice) (a : Int) : Except Unit Voice :=
  Music.push v (.SetAmplifier a)

/-- `Music::seek_to`. -/
def Music.seek_to (v : Voice) (t : Int) : Except Unit Voice :=
  Music.push v (.SeekTo t)

/-- `Music::set_low_pass`. -/
def Music.set_low_pass (v : Voice) (l : Int) : Except Unit Voice :=
  Music.push v (.SetLowPass l)

/-- `Music::fade_in`. -/
def Music.fade_in (v : Voice) (t : Int) : Except Unit Voice :=
  Music.push v (.FadeIn t)

/-- `Music::fade_out`. -/
def Music.fade_out (v : Voice) (t : Int) : Except Unit Voice :=
  Music.push v (.FadeOut t)

/-- `Music::position` reads the shared position atomic; the stored `u32`
bit pattern (an integer tick written by the renderer) is returned here as
the raw bits — the source reinterprets them through `f32::from_bits`. -/
def Music.positionBits (v : Voice) : Nat := v.shared.position

/-- Dropping the `Music` control handle: the `Arc` is the only strong
reference, so the shared block loses its owner and the producer half of the
ring dies; the consumer half (the renderer's `queue` view) stays usable. -/
def Music.dropHandle (v : Voice) : Voice := { v with alive := false }

/-- The mono generation loop of `render_mono` with the `f64` delta and
position accumulator carried as IEEE-rounded rationals: `p` is the current
`position` value, updated per sample by `position += delta` with binary64
rounding; the casts `position as i16` and `delta as i16` are saturating
truncations.  The third result component counts the generated samples. -/
def renderRunF (d : ℚ) : Voice → ℚ → List Int → Except Unit (Voice × List Int × Nat)
  | v, _, [] => .ok (v, [], 0)
  | v, p, x :: xs =>
      match frame v (satI16 (ratTrunc p)) (satI16 (ratTrunc d)) with
      | .error e => .error e
      | .ok (none, v1) => .ok (v1, x :: xs, 0)
      | .ok (some f, v1) =>
          let pr := update_and_get v1 f
          match renderRunF d pr.2 (roundF64 (qadd p d)) xs with
          | .error e => .error e
          | .ok (vf, rest, n) => .ok (vf, wrap16 (x + pr.1.avg) :: rest, n + 1)

/-- The position publication tail with the truncated `f64` delta value. -/
def publishPosF (v : Voice) (d : ℚ) : Voice :=
  if v.alive then
    { v with shared :=
        { v.shared with position := u32OfI16 (rendererPosition v (satI16 (ratTrunc d))) } }
  else v

/-- `Renderer::render_mono` with the `f64` delta and position accumulator
modelled faithfully: `delta = 1. / sample_rate as f64 * playback_rate as
f64` (both operations round), the starting position is `self.index as f64 *
delta` (the conversion and the product both round), then the generation
loop runs and the position is published. -/
def render_monoF (v : Voice) (rate : Nat) (data : List Int) :
    Except Unit (Voice × List Int) :=
  match prepare v rate with
  | .error e => .error e
  | .ok v1 =>
      if v1.paused then .ok (v1, data)
      else
        let d := f64delta v1.settings.playback_rate rate
        match renderRunF d v1 (roundF64 (qmul (roundF64 (qOfNat v1.index)) d)) data with
        | .error e => .error e
        | .ok (v2, out, _) => .ok (publishPosF v2 d, out)

/-- Enqueue a whole command sequence in order. -/
def pushAll (v : Voice) (cs : List MusicCommand) : Except Unit Voice :=
  cs.foldlM Music.push v

/-- A command that can unpause the voice (Resume, or FadeIn which unpauses
unconditionally). -/
def unpauses : MusicCommand → Bool
  | .Resume => true
  | .FadeIn _ => true
  | _ => false

/-- A seek command (the only command that moves the sample index). -/
def isSeek : MusicCommand → Bool
  | .SeekTo _ => true
  | _ => false

/-! ### Arithmetic helper lemmas -/

lemma wrap16_eq_self {n : Int} (h1 : -32768 ≤ n) (h2 : n ≤ 32767) :
    wrap16 n = n := by
  unfold wrap16
  rw [Int.emod_eq_of_lt (by omega) (by omega)]
  omega

lemma wrap32_eq_self {n : Int} (h1 : -2147483648 ≤ n) (h2 : n ≤ 2147483647) :
    wrap32 n = n := by
  unfold wrap32
  rw [Int.emod_eq_of_lt (by omega) (by omega)]
  omega

lemma satI16_eq_self {n : Int} (h1 : -32768 ≤ n) (h2 : n ≤ 32767) :
    satI16 n = n := by
  unfold satI16
  omega

lemma usizeOfI16_eq_toNat {n : Int} (h1 : 0 ≤ n) (h2 : n ≤ 32767) :
    usizeOfI16 n = n.toNat := by
  unfold usizeOfI16 USIZE
  rw [Int.emod_eq_of_lt (by omega) (by omega)]

lemma deltaI16_self {R : Nat} (hR : 1 ≤ R) : deltaI16 (R : Int) R = 1 := by
  unfold deltaI16
  rw [if_neg (by omega)]
  have hne : (R : Int) ≠ 0 := by omega
  rw [Int.tdiv_self hne]
  decide

lemma deltaI16_zero {P : Int} {R : Nat} (h0 : 0 ≤ P) (hPR : P < (R : Int)) :
    deltaI16 P R = 0 := by
  unfold deltaI16
  have hR : R ≠ 0 := by
    intro h; subst h; simp only [Nat.cast_zero] at hPR; omega
  rw [if_neg hR]
  rw [Int.tdiv_eq_zero_of_lt h0 hPR]
  decide

lemma posI16_self {m : Nat} {R : Nat} (hR : 1 ≤ R) (hm : m ≤ 32767) :
    posI16 m (R : Int) R = (m : Int) := by
  unfold posI16
  rw [if_neg (by omega)]
  have hne : (R : Int) ≠ 0 := by omega
  rw [Int.mul_tdiv_cancel _ hne]
  exact satI16_eq_self (by omega) (by omega)

lemma posI16_natDiv {m P R : Nat} (hR : 1 ≤ R) (h : m * P / R ≤ 32767) :
    posI16 m (P : Int) R = ((m * P / R : Nat) : Int) := by
  unfold posI16
  rw [if_neg (by omega)]
  have h1 : ((m : Int) * (P : Int)).tdiv (R : Int) = ((m * P / R : Nat) : Int) := by
    rw [show ((m : Int) * (P : Int)) = ((m * P : Nat) : Int) by push_cast; ring]
    rw [← Int.ofNat_tdiv]
  rw [h1]
  exact satI16_eq_self
    (le_trans (by norm_num) (Int.natCast_nonneg _)) (by exact_mod_cast h)

lemma sample_eq_some {c : AudioClip} {p : Int} (h1 : 0 ≤ p)
    (h2 : p < (c.length : Int)) : c.sample p = some (c.data p) := by
  unfold AudioClip.sample
  rw [if_pos ⟨h1, h2⟩]

lemma sample_eq_none {c : AudioClip} {p : Int}
    (h : p < 0 ∨ (c.length : Int) ≤ p) : c.sample p = none := by
  unfold AudioClip.sample
  rw [if_neg (by omega)]

/-! ### Step lemmas about `frame` -/

/-- The wrapped tick `position - clip.length() as i16 + loop_mix_time` of
the loop-wrap branch of `frame`. -/
def wrapPos (v : Voice) (pos : Int) : Int :=
  wrap16 (wrap16 (pos - wrap16 v.clip.length) + v.settings.loop_mix_time)

@[simp] lemma setPausedBoth_clip (v : Voice) (b : Bool) :
    (setPausedBoth v b).clip = v.clip := by
  simp only [setPausedBoth]; split <;> rfl

@[simp] lemma setPausedBoth_settings (v : Voice) (b : Bool) :
    (setPausedBoth v b).settings = v.settings := by
  simp only [setPausedBoth]; split <;> rfl

@[simp] lemma setPausedBoth_queue (v : Voice) (b : Bool) :
    (setPausedBoth v b).queue = v.queue := by
  simp only [setPausedBoth]; split <;> rfl

@[simp] lemma setPausedBoth_capacity (v : Voice) (b : Bool) :
    (setPausedBoth v b).capacity = v.capacity := by
  simp only [setPausedBoth]; split <;> rfl

@[simp] lemma setPausedBoth_alive (v : Voice) (b : Bool) :
    (setPausedBoth v b).alive = v.alive := by
  simp only [setPausedBoth]; split <;> rfl

@[simp] lemma setPausedBoth_index (v : Voice) (b : Bool) :
    (setPausedBoth v b).index = v.index := by
  simp only [setPausedBoth]; split <;> rfl

@[simp] lemma setPausedBoth_rate (v : Voice) (b : Bool) :
    (setPausedBoth v b).last_sample_rate = v.last_sample_rate := by
  simp only [setPausedBoth]; split <;> rfl

@[simp] lemma setPausedBoth_low_pass (v : Voice) (b : Bool) :
    (setPausedBoth v b).low_pass = v.low_pass := by
  simp only [setPausedBoth]; split <;> rfl

@[simp] lemma setPausedBoth_last_output (v : Voice) (b : Bool) :
    (setPausedBoth v b).last_output = v.last_output := by
  simp only [setPausedBoth]; split <;> rfl

@[simp] lemma setPausedBoth_fade_time (v : Voice) (b : Bool) :
    (setPausedBoth v b).fade_time = v.fade_time := by
  simp only [setPausedBoth]; split <;> rfl

@[simp] lemma setPausedBoth_fade_current (v : Voice) (b : Bool) :
    (setPausedBoth v b).fade_current = v.fade_current := by
  simp only [setPausedBoth]; split <;> rfl

@[simp] lemma setPausedBoth_paused (v : Voice) (b : Bool) :
    (setPausedBoth v b).paused = b := by
  simp only [setPausedBoth]; split <;> rfl

@[simp] lemma setPausedBoth_position (v : Voice) (b : Bool) :
    (setPausedBoth v b).shared.position = v.shared.position := by
  simp only [setPausedBoth]; split <;> rfl

@[simp] lemma setPausedBoth_shared_dead {v : Voice} (b : Bool)
    (h : v.alive = false) : (setPausedBoth v b).shared = v.shared := by
  simp only [setPausedBoth]
  rw [if_neg (by simp [h])]

@[simp] lemma setPausedBoth_shared_paused_alive {v : Voice} (b : Bool)
    (h : v.alive = true) : (setPausedBoth v b).shared.paused = b := by
  simp only [setPausedBoth]
  rw [if_pos (by simp [h])]

lemma frame_norm (delta : Int) {v : Voice} {pos : Int} {f : Frame}
    (hf : v.fade_time = 0) (hs : v.clip.sample pos = some f) :
    ∃ g, frame v pos delta =
      .ok (some g, { v with index := (v.index + 1) % USIZE }) := by
  unfold frame
  rw [hs]
  simp only [hf, ne_eq, not_true_eq_false, if_false, ite_false]
  exact ⟨_, rfl⟩

lemma frame_end {v : Voice} {pos delta : Int}
    (hs : v.clip.sample pos = none) (hL : v.settings.loop_mix_time < 0) :
    frame v pos delta = .ok (none, { v with paused := true }) := by
  unfold frame
  rw [hs]
  simp only []
  rw [if_neg (by omega)]

lemma frame_wrap (delta : Int) {v : Voice} {pos : Int}
    (hs : v.clip.sample pos = none) (hL : 0 ≤ v.settings.loop_mix_time)
    (hd : delta ≠ 0) (hov : ¬(wrapPos v pos = -32768 ∧ delta = -1)) :
    ∃ g, frame v pos delta =
      .ok (some g, { v with index := usizeOfI16 ((wrapPos v pos).tdiv delta) }) := by
  unfold frame
  rw [hs]
  simp only []
  rw [if_pos hL]
  unfold i16div
  rw [if_neg (by unfold wrapPos at hov; tauto)]
  cases hq : v.clip.sample (wrapPos v pos) with
  | some f2 =>
      unfold wrapPos at hq
      rw [hq]
      exact ⟨_, by unfold wrapPos; rfl⟩
  | none =>
      unfold wrapPos at hq
      rw [hq]
      exact ⟨_, by unfold wrapPos; rfl⟩

lemma frame_wrap_div_zero {v : Voice} {pos : Int}
    (hs : v.clip.sample pos = none) (hL : 0 ≤ v.settings.loop_mix_time) :
    frame v pos 0 = .error () := by
  unfold frame
  rw [hs]
  simp only []
  rw [if_pos hL]
  unfold i16div
  rw [if_pos (Or.inl rfl)]

lemma frame_fadeout_done {v : Voice} {pos delta : Int} {f : Frame}
    (hs : v.clip.sample pos = some f) (hneg : v.fade_time < 0)
    (hreach : wrap32 (v.fade_current - 1) ≤ v.fade_time) :
    frame v pos delta = .ok (none, setPausedBoth
      { v with index := (v.index + 1) % USIZE,
               fade_current := wrap32 (v.fade_current - 1), fade_time := 0 } true) := by
  unfold frame
  rw [hs]
  simp only []
  rw [if_pos (by omega), if_neg (by omega), if_pos hreach]

lemma frame_fields {v v' : Voice} {pos delta : Int} {of : Option Frame}
    (h : frame v pos delta = .ok (of, v')) :
    v'.clip = v.clip ∧ v'.settings = v.settings ∧ v'.queue = v.queue ∧
    v'.capacity = v.capacity ∧ v'.alive = v.alive ∧
    v'.last_sample_rate = v.last_sample_rate ∧ v'.low_pass = v.low_pass ∧
    v'.last_output = v.last_output ∧
    (v.alive = false → v'.shared = v.shared) ∧
    v'.shared.position = v.shared.position := by
  unfold frame at h
  repeat any_goals ((try simp only [] at h); split at h)
  all_goals simp only [Except.ok.injEq, Prod.mk.injEq, reduceCtorEq] at h
  all_goals obtain ⟨h1, h2⟩ := h
  all_goals subst h2
  all_goals simp_all

/-! ### Loop lemmas about `renderRun` -/

lemma renderRun_fields {P : Int} {R : Nat} (xs : List Int) :
    ∀ {m : Nat} {v v' : Voice} {out : List Int} {n : Nat},
    renderRun P R v m xs = .ok (v', out, n) →
    v'.clip = v.clip ∧ v'.settings = v.settings ∧ v'.queue = v.queue ∧
    v'.capacity = v.capacity ∧ v'.alive = v.alive ∧
    v'.last_sample_rate = v.last_sample_rate ∧ v'.low_pass = v.low_pass ∧
    (v.alive = false → v'.shared = v.shared) ∧
    v'.shared.position = v.shared.position := by
  induction xs with
  | nil =>
      intro m v v' out n h
      unfold renderRun at h
      simp only [Except.ok.injEq, Prod.mk.injEq] at h
      obtain ⟨h1, h2, h3⟩ := h
      subst h1
      simp
  | cons x xs ih =>
      intro m v v' out n h
      unfold renderRun at h
      cases hf : frame v (posI16 m P R) (deltaI16 P R) with
      | error e =>
          rw [hf] at h
          exact absurd h (by simp)
      | ok p =>
          obtain ⟨of, v1⟩ := p
          rw [hf] at h
          cases of with
          | none =>
              simp only [Except.ok.injEq, Prod.mk.injEq] at h
              obtain ⟨h1, h2, h3⟩ := h
              subst h1
              obtain ⟨e1, e2, e3, e4, e5, e6, e7, e8, e9, e10⟩ := frame_fields hf
              exact ⟨e1, e2, e3, e4, e5, e6, e7, fun hd => e9 hd, e10⟩
          | some f =>
              simp only [] at h
              cases hr : renderRun P R (update_and_get v1 f).2 (m + 1) xs with
              | error e =>
                  rw [hr] at h
                  exact absurd h (by simp)
              | ok q =>
                  obtain ⟨v2, rest, k⟩ := q
                  rw [hr] at h
                  simp only [Except.ok.injEq, Prod.mk.injEq] at h
                  obtain ⟨h1, h2, h3⟩ := h
                  subst h1
                  obtain ⟨e1, e2, e3, e4, e5, e6, e7, e8, e9, e10⟩ := frame_fields hf
                  obtain ⟨g1, g2, g3, g4, g5, g6, g7, g8, g9⟩ := ih hr
                  simp only [update_and_get] at g1 g2 g3 g4 g5 g6 g7 g8 g9
                  refine ⟨g1.trans e1, g2.trans e2, g3.trans e3, g4.trans e4,
                    g5.trans e5, g6.trans e6, g7.trans e7, ?_, g9.trans e10⟩
                  intro hd
                  exact (g8 (e5.trans hd)).trans (e9 hd)

lemma renderRun_norm {P : Int} {R : Nat} (xs : List Int) :
    ∀ (m : Nat) (v : Voice),
    v.fade_time = 0 →
    (∀ k, k < xs.length → (v.clip.sample (posI16 (m + k) P R)).isSome) →
    v.index + xs.length < USIZE →
    ∃ lo out, renderRun P R v m xs =
      .ok ({ v with index := v.index + xs.length, last_output := lo }, out, xs.length) ∧
      out.length = xs.length := by
  induction xs with
  | nil =>
      intro m v hf hs hi
      exact ⟨v.last_output, [], rfl, rfl⟩
  | cons x xs ih =>
      intro m v hf hs hi
      have hsome : (v.clip.sample (posI16 m P R)).isSome := by
        have := hs 0 (by simp)
        rwa [Nat.add_zero] at this
      obtain ⟨f, hf0⟩ := Option.isSome_iff_exists.mp hsome
      obtain ⟨g, hfr⟩ := frame_norm (deltaI16 P R) hf hf0
      have hmod : (v.index + 1) % USIZE = v.index + 1 :=
        Nat.mod_eq_of_lt (by simp at hi; omega)
      rw [hmod] at hfr
      have hrec := ih (m + 1)
        ((update_and_get { v with index := v.index + 1 } g).2) (by simp [update_and_get, hf])
        ?_ ?_
      rotate_left
      · intro k hk
        have hx := hs (k + 1) (by simp; omega)
        rw [show m + 1 + k = m + (k + 1) by omega]
        simpa [update_and_get] using hx
      · simp only [update_and_get]
        simp only [List.length_cons] at hi
        omega
      obtain ⟨lo, out, hout, hlen⟩ := hrec
      refine ⟨lo, wrap16 (x + (update_and_get { v with index := v.index + 1 } g).1.avg)
        :: out, ?_, by simp [hlen]⟩
      unfold renderRun
      rw [hfr]
      simp only []
      rw [hout]
      simp only [update_and_get, List.length_cons]
      rw [show v.index + 1 + xs.length = v.index + (xs.length + 1) from by omega]

lemma renderRun_stop {P : Int} {R : Nat} {v : Voice} {m : Nat} {x : Int}
    {xs : List Int} (hnone : v.clip.sample (posI16 m P R) = none)
    (hnl : v.settings.loop_mix_time < 0) :
    renderRun P R v m (x :: xs) = .ok ({ v with paused := true }, x :: xs, 0) := by
  unfold renderRun
  rw [frame_end hnone hnl]

lemma renderRun_append {P : Int} {R : Nat} (xs : List Int) :
    ∀ {ys : List Int} {m : Nat} {v v1 v2 : Voice} {out1 out2 : List Int} {n2 : Nat},
    renderRun P R v m xs = .ok (v1, out1, xs.length) →
    renderRun P R v1 (m + xs.length) ys = .ok (v2, out2, n2) →
    renderRun P R v m (xs ++ ys) = .ok (v2, out1 ++ out2, xs.length + n2) := by
  induction xs with
  | nil =>
      intro ys m v v1 v2 out1 out2 n2 h1 h2
      unfold renderRun at h1
      simp only [Except.ok.injEq, Prod.mk.injEq] at h1
      obtain ⟨e1, e2, e3⟩ := h1
      subst e1
      subst e2
      simpa using h2
  | cons x xs ih =>
      intro ys m v v1 v2 out1 out2 n2 h1 h2
      unfold renderRun at h1
      cases hf : frame v (posI16 m P R) (deltaI16 P R) with
      | error e =>
          rw [hf] at h1
          exact absurd h1 (by simp)
      | ok p =>
          obtain ⟨of, w⟩ := p
          rw [hf] at h1
          cases of with
          | none =>
              simp only [Except.ok.injEq, Prod.mk.injEq, List.length_cons] at h1
              omega
          | some f =>
              simp only [] at h1
              cases hr : renderRun P R (update_and_get w f).2 (m + 1) xs with
              | error e =>
                  rw [hr] at h1
                  exact absurd h1 (by simp)
              | ok q =>
                  obtain ⟨w2, rest, k⟩ := q
                  rw [hr] at h1
                  simp only [Except.ok.injEq, Prod.mk.injEq, List.length_cons] at h1
                  obtain ⟨e1, e2, e3⟩ := h1
                  have hk : k = xs.length := by omega
                  subst hk
                  have h2' : renderRun P R w2 (m + 1 + xs.length) ys = .ok (v2, out2, n2) := by
                    rw [e1, show m + 1 + xs.length = m + (xs.length + 1) from by omega]
                    simpa using h2
                  have happ := ih hr h2'
                  show renderRun P R v m (x :: (xs ++ ys)) = _
                  unfold renderRun
                  rw [hf]
                  simp only []
                  rw [happ]
                  simp only []
                  simp only [List.length_cons]
                  rw [← e2]
                  simp only [List.cons_append]
                  have hcnt : xs.length + 1 + n2 = xs.length + n2 + 1 := by omega
                  rw [hcnt]

lemma renderRun_wrapZone {R N L : Nat} (xs : List Int) :
    ∀ (x : Int) (m : Nat) (v : Voice),
    v.clip.length = N →
    v.settings.loop_mix_time = (L : Int) →
    1 ≤ R → L < N → N ≤ m → m + xs.length ≤ N + L → N + L ≤ 32767 →
    ∃ lo out, renderRun (R : Int) R v m (x :: xs) =
      .ok ({ v with index := m + xs.length - N + L, last_output := lo },
        out, xs.length + 1) ∧
      out.length = xs.length + 1 := by
  induction xs with
  | nil =>
      intro x m v hN hL hR hLN hNm hmb hbound
      simp only [List.length_nil, Nat.add_zero] at hmb
      have hpos : posI16 m (R : Int) R = (m : Int) := posI16_self hR (by omega)
      have hnone : v.clip.sample (m : Int) = none := by
        refine sample_eq_none (Or.inr ?_)
        rw [hN]
        exact_mod_cast hNm
      have hwp : wrapPos v (m : Int) = ((m - N + L : Nat) : Int) := by
        unfold wrapPos
        rw [hN, hL]
        have e1 : wrap16 ((N : Nat) : Int) = (N : Int) := wrap16_eq_self (by omega) (by omega)
        rw [e1]
        have e2 : wrap16 ((m : Int) - (N : Int)) = (m : Int) - N :=
          wrap16_eq_self (by omega) (by omega)
        rw [e2]
        have e3 : wrap16 ((m : Int) - (N : Int) + (L : Int)) = (m : Int) - N + L :=
          wrap16_eq_self (by omega) (by omega)
        rw [e3]
        omega
      obtain ⟨g, hfr⟩ := frame_wrap 1 hnone (by rw [hL]; omega)
        (by norm_num) (by rintro ⟨h1, h2⟩; norm_num at h2)
      rw [Int.tdiv_one, hwp] at hfr
      rw [usizeOfI16_eq_toNat (by omega) (by omega), Int.toNat_natCast] at hfr
      have hdelta : deltaI16 (R : Int) R = 1 := deltaI16_self hR
      refine ⟨(update_and_get { v with index := m - N + L } g).1,
        [wrap16 (x + (update_and_get { v with index := m - N + L } g).1.avg)], ?_, rfl⟩
      unfold renderRun
      rw [hpos, hdelta, hfr]
      simp only [renderRun, update_and_get, List.length_nil, Nat.add_zero]
  | cons y xs ih =>
      intro x m v hN hL hR hLN hNm hmb hbound
      simp only [List.length_cons] at hmb
      have hpos : posI16 m (R : Int) R = (m : Int) := posI16_self hR (by omega)
      have hnone : v.clip.sample (m : Int) = none := by
        refine sample_eq_none (Or.inr ?_)
        rw [hN]
        exact_mod_cast hNm
      have hwp : wrapPos v (m : Int) = ((m - N + L : Nat) : Int) := by
        unfold wrapPos
        rw [hN, hL]
        have e1 : wrap16 ((N : Nat) : Int) = (N : Int) := wrap16_eq_self (by omega) (by omega)
        rw [e1]
        have e2 : wrap16 ((m : Int) - (N : Int)) = (m : Int) - N :=
          wrap16_eq_self (by omega) (by omega)
        rw [e2]
        have e3 : wrap16 ((m : Int) - (N : Int) + (L : Int)) = (m : Int) - N + L :=
          wrap16_eq_self (by omega) (by omega)
        rw [e3]
        omega
      obtain ⟨g, hfr⟩ := frame_wrap 1 hnone (by rw [hL]; omega)
        (by norm_num) (by rintro ⟨h1, h2⟩; norm_num at h2)
      rw [Int.tdiv_one, hwp] at hfr
      rw [usizeOfI16_eq_toNat (by omega) (by omega), Int.toNat_natCast] at hfr
      have hdelta : deltaI16 (R : Int) R = 1 := deltaI16_self hR
      have hrec := ih y (m + 1)
        ((update_and_get { v with index := m - N + L } g).2)
        (by exact hN) (by exact hL) hR hLN
        (by omega) (by omega) hbound
      obtain ⟨lo, out, hout, hlen⟩ := hrec
      refine ⟨lo, wrap16 (x + (update_and_get { v with index := m - N + L } g).1.avg)
        :: out, ?_, by simp [hlen]⟩
      unfold renderRun
      rw [hpos, hdelta, hfr]
      simp only []
      simp only [update_and_get] at hout ⊢
      rw [hout]
      rw [show m + 1 + xs.length - N + L = m + (xs.length + 1) - N + L from by omega]
      simp only [List.length_cons]

lemma frame_norm_value (delta : Int) {v : Voice} {pos : Int} {f : Frame}
    (hf : v.fade_time = 0) (hnl : v.settings.loop_mix_time < 0)
    (hs : v.clip.sample pos = some f) :
    frame v pos delta = .ok (some (f.mulScalar v.settings.amplifier),
      { v with index := (v.index + 1) % USIZE }) := by
  unfold frame
  rw [hs]
  simp only []
  rw [if_neg (show ¬v.settings.loop_mix_time ≥ 0 from by omega)]
  simp only [hf, ne_eq, not_true_eq_false, if_false, ite_false]

lemma update_low0 {v : Voice} {g : Frame} (hlp : v.low_pass = 0)
    (hl1 : -32768 ≤ g.l) (hl2 : g.l ≤ 32767)
    (hr1 : -32768 ≤ g.r) (hr2 : g.r ≤ 32767) :
    update_and_get v g = (g, { v with last_output := g }) := by
  have w1 : wrap16 (1 - (0 : Int)) = 1 := by decide
  unfold update_and_get Frame.add Frame.mulScalar
  rw [hlp, w1]
  simp only [mul_zero, mul_one]
  have z : wrap16 0 = 0 := by decide
  rw [z, wrap16_eq_self hl1 hl2, wrap16_eq_self hr1 hr2]
  simp only [zero_add]
  rw [wrap16_eq_self hl1 hl2, wrap16_eq_self hr1 hr2]

lemma renderRun_const {R len : Nat} {c : Int} (xs : List Int) :
    ∀ (m : Nat) (v : Voice),
    v.clip.length = len →
    (∀ p, v.clip.data p = ⟨c, c⟩) →
    v.settings.loop_mix_time < 0 →
    v.settings.amplifier = 2 →
    v.low_pass = 0 →
    v.fade_time = 0 →
    1 ≤ R → -8191 ≤ c → c ≤ 8191 →
    m + xs.length ≤ len → len ≤ 32767 → v.index + xs.length < USIZE →
    ∃ lo, renderRun (R : Int) R v m xs =
      .ok ({ v with index := v.index + xs.length, last_output := lo },
        xs.map (fun b => wrap16 (b + 2 * c)), xs.length) := by
  induction xs with
  | nil =>
      intro m v hlen hdata hnl hamp hlp hf hR hc1 hc2 hmb hlen32 hidx
      exact ⟨v.last_output, rfl⟩
  | cons x xs ih =>
      intro m v hlen hdata hnl hamp hlp hf hR hc1 hc2 hmb hlen32 hidx
      simp only [List.length_cons] at hmb hidx
      have hpos : posI16 m (R : Int) R = (m : Int) := posI16_self hR (by omega)
      have hsamp : v.clip.sample (m : Int) = some (v.clip.data (m : Int)) :=
        sample_eq_some (by omega) (by rw [hlen]; exact_mod_cast (by omega : m < len))
      rw [hdata] at hsamp
      have hfr := frame_norm_value (deltaI16 (R : Int) R) hf hnl hsamp
      rw [hamp] at hfr
      have hg : (Frame.mk c c).mulScalar 2 = ⟨c * 2, c * 2⟩ := by
        unfold Frame.mulScalar
        simp only []
        rw [wrap16_eq_self (by omega) (by omega)]
      rw [hg] at hfr
      have hmod : (v.index + 1) % USIZE = v.index + 1 := Nat.mod_eq_of_lt (by omega)
      rw [hmod] at hfr
      have hupd : update_and_get { v with index := v.index + 1 } (Frame.mk (c * 2) (c * 2)) =
          (⟨c * 2, c * 2⟩, { v with index := v.index + 1, last_output := ⟨c * 2, c * 2⟩ }) :=
        update_low0 (by exact hlp) (by simp only []; omega) (by simp only []; omega)
          (by simp only []; omega) (by simp only []; omega)
      have hrec := ih (m + 1) { v with index := v.index + 1, last_output := ⟨c * 2, c * 2⟩ }
        (by exact hlen) (by exact hdata) (by exact hnl) (by exact hamp) (by exact hlp)
        (by exact hf) hR hc1 hc2 (by omega) hlen32 (by simp only []; omega)
      obtain ⟨lo, hout⟩ := hrec
      refine ⟨lo, ?_⟩
      unfold renderRun
      rw [hpos, hfr]
      simp only []
      rw [hupd]
      simp only []
      rw [hout]
      have havg : (Frame.mk (c * 2) (c * 2)).avg = c * 2 := by
        unfold Frame.avg
        simp only []
        rw [wrap16_eq_self (by omega) (by omega)]
        rw [show c * 2 + c * 2 = c * 2 * 2 from by ring]
        exact Int.mul_tdiv_cancel _ (by norm_num)
      rw [havg]
      rw [show v.index + 1 + xs.length = v.index + (xs.length + 1) from by omega]
      rw [show x + c * 2 = x + 2 * c from by ring]
      simp only [List.map_cons, List.length_cons]

/-! ### Lemmas about `prepare`, `drain` and the control side -/

lemma rateAdapt_same {v : Voice} {R : Nat} (h : v.last_sample_rate = R) :
    rateAdapt v R = v := by
  unfold rateAdapt
  rw [if_pos h]

lemma queue_nil_eta {v : Voice} (h : v.queue = []) : { v with queue := [] } = v := by
  rw [← h]

lemma prepare_noop {v : Voice} {R : Nat} (hq : v.queue = [])
    (hr : v.last_sample_rate = R) : prepare v R = .ok v := by
  unfold prepare drain
  rw [rateAdapt_same hr, hq, queue_nil_eta hq]
  rfl

lemma render_mono_paused {v : Voice} {R : Nat} {buf : List Int}
    (hp : v.paused = true) (hq : v.queue = []) (hr : v.last_sample_rate = R) :
    render_mono v R buf = .ok (v, buf) := by
  unfold render_mono
  rw [prepare_noop hq hr]
  simp only []
  rw [if_pos hp]

lemma rateAdapt_fields (v : Voice) (R : Nat) :
    (rateAdapt v R).queue = v.queue ∧ (rateAdapt v R).shared = v.shared ∧
    (rateAdapt v R).alive = v.alive ∧ (rateAdapt v R).clip = v.clip ∧
    (rateAdapt v R).settings = v.settings ∧ (rateAdapt v R).capacity = v.capacity ∧
    (rateAdapt v R).paused = v.paused ∧ (rateAdapt v R).low_pass = v.low_pass ∧
    (rateAdapt v R).last_output = v.last_output ∧
    (v.index = 0 → (rateAdapt v R).index = 0) := by
  unfold rateAdapt
  split
  · simp
  split
  · refine ⟨rfl, rfl, rfl, rfl, rfl, rfl, rfl, rfl, rfl, ?_⟩
    intro h0
    simp [h0]
  · refine ⟨rfl, rfl, rfl, rfl, rfl, rfl, rfl, rfl, rfl, ?_⟩
    intro h0
    have hz : ((v.last_sample_rate : Int)) / (2 * (v.last_sample_rate : Int)) = 0 :=
      Int.ediv_eq_zero_of_lt (by omega) (by omega)
    simp [h0, roundHalfAwayDiv, hz]

lemma applyCommand_fields {R : Nat} {v v' : Voice} {c : MusicCommand}
    (h : applyCommand R v c = .ok v') :
    v'.queue = v.queue ∧ v'.capacity = v.capacity ∧ v'.alive = v.alive ∧
    v'.clip = v.clip ∧ v'.last_sample_rate = v.last_sample_rate ∧
    v'.shared.position = v.shared.position ∧
    (v.alive = false → v'.shared = v.shared) ∧
    v'.settings.playback_rate = v.settings.playback_rate := by
  unfold applyCommand at h
  cases c
  all_goals (repeat any_goals ((try simp only [] at h); split at h))
  all_goals simp only [Except.ok.injEq, reduceCtorEq] at h
  all_goals subst h
  all_goals simp_all

lemma foldApply_fields {R : Nat} (cs : List MusicCommand) :
    ∀ {v v' : Voice}, cs.foldlM (applyCommand R) v = .ok v' →
    v'.queue = v.queue ∧ v'.capacity = v.capacity ∧ v'.alive = v.alive ∧
    v'.clip = v.clip ∧ v'.last_sample_rate = v.last_sample_rate ∧
    v'.shared.position = v.shared.position ∧
    (v.alive = false → v'.shared = v.shared) ∧
    v'.settings.playback_rate = v.settings.playback_rate := by
  induction cs with
  | nil =>
      intro v v' h
      simp only [List.foldlM_nil] at h
      have h2 : (Except.ok v : Except Unit Voice) = .ok v' := h
      obtain rfl := Except.ok.inj h2
      simp
  | cons c cs ih =>
      intro v v' h
      simp only [List.foldlM_cons] at h
      cases hc : applyCommand R v c with
      | error e =>
          rw [hc] at h
          have h2 : (Except.error e : Except Unit Voice) = .ok v' := h
          exact absurd h2 (by simp)
      | ok w =>
          rw [hc] at h
          have h3 : cs.foldlM (applyCommand R) w = .ok v' := h
          obtain ⟨e1, e2, e3, e4, e5, e6, e7, e8⟩ := applyCommand_fields hc
          obtain ⟨g1, g2, g3, g4, g5, g6, g7, g8⟩ := ih h3
          exact ⟨g1.trans e1, g2.trans e2, g3.trans e3, g4.trans e4, g5.trans e5,
            g6.trans e6, fun hd => (g7 (e3.trans hd)).trans (e7 hd), g8.trans e8⟩

lemma foldApply_paused {R : Nat} (cs : List MusicCommand) :
    ∀ {v v' : Voice}, (∀ c ∈ cs, unpauses c = false) → v.paused = true →
    cs.foldlM (applyCommand R) v = .ok v' →
    v'.paused = true ∧ ((∀ c ∈ cs, isSeek c = false) → v'.index = v.index) := by
  induction cs with
  | nil =>
      intro v v' hun hp h
      simp only [List.foldlM_nil] at h
      have h2 : (Except.ok v : Except Unit Voice) = .ok v' := h
      obtain rfl := Except.ok.inj h2
      exact ⟨hp, fun h2 => rfl⟩
  | cons c cs ih =>
      intro v v' hun hp h
      simp only [List.foldlM_cons] at h
      cases hc : applyCommand R v c with
      | error e =>
          rw [hc] at h
          have h2 : (Except.error e : Except Unit Voice) = .ok v' := h
          exact absurd h2 (by simp)
      | ok w =>
          rw [hc] at h
          have h3 : cs.foldlM (applyCommand R) w = .ok v' := h
          have hw : w.paused = true ∧ (isSeek c = false → w.index = v.index) := by
            cases c with
            | Pause =>
                unfold applyCommand at hc
                simp only [] at hc
                simp only [Except.ok.injEq] at hc
                subst hc
                simp [hp]
            | Resume =>
                have := hun .Resume (by simp)
                simp [unpauses] at this
            | SetAmplifier a =>
                unfold applyCommand at hc
                simp only [] at hc
                simp only [Except.ok.injEq] at hc
                subst hc
                exact ⟨hp, fun h2 => rfl⟩
            | SeekTo t =>
                unfold applyCommand at hc
                simp only [] at hc
                split at hc
                · exact absurd hc (by simp)
                · simp only [Except.ok.injEq] at hc
                  subst hc
                  exact ⟨hp, fun h2 => by simp [isSeek] at h2⟩
            | SetLowPass l =>
                unfold applyCommand at hc
                simp only [] at hc
                simp only [Except.ok.injEq] at hc
                subst hc
                exact ⟨hp, fun h2 => rfl⟩
            | FadeIn t =>
                have := hun (.FadeIn t) (by simp)
                simp [unpauses] at this
            | FadeOut t =>
                unfold applyCommand at hc
                simp only [] at hc
                simp only [Except.ok.injEq] at hc
                subst hc
                exact ⟨hp, fun h2 => rfl⟩
          obtain ⟨ih1, ih2⟩ := ih (fun d hd => hun d (by simp [hd])) hw.1 h3
          refine ⟨ih1, fun hsk => ?_⟩
          rw [ih2 (fun d hd => hsk d (by simp [hd]))]
          exact hw.2 (hsk c (by simp))

lemma pushAll_ok (cs : List MusicCommand) :
    ∀ (v : Voice), v.queue.length + cs.length ≤ v.capacity →
    pushAll v cs = .ok { v with queue := v.queue ++ cs } := by
  induction cs with
  | nil =>
      intro v h
      unfold pushAll
      simp only [List.foldlM_nil, List.append_nil]
      rfl
  | cons c cs ih =>
      intro v h
      have hpush : Music.push v c = .ok { v with queue := v.queue ++ [c] } := by
        unfold Music.push
        rw [if_pos (by simp at h; omega)]
      unfold pushAll
      simp only [List.foldlM_cons]
      rw [hpush]
      show pushAll { v with queue := v.queue ++ [c] } cs =
        .ok { v with queue := v.queue ++ c :: cs }
      rw [ih { v with queue := v.queue ++ [c] } (by simp at h ⊢; omega)]
      rw [List.append_assoc]
      rfl

lemma u32OfI16_eq {n : Int} (h1 : 0 ≤ n) (h2 : n ≤ 32767) :
    u32OfI16 n = n.toNat := by
  unfold u32OfI16
  rw [Int.emod_eq_of_lt (by omega) (by omega)]

@[simp] lemma publishPos_queue (v : Voice) (P : Int) (R : Nat) :
    (publishPos v P R).queue = v.queue := by
  unfold publishPos; split <;> rfl

@[simp] lemma publishPos_alive (v : Voice) (P : Int) (R : Nat) :
    (publishPos v P R).alive = v.alive := by
  unfold publishPos; split <;> rfl

@[simp] lemma publishPos_paused (v : Voice) (P : Int) (R : Nat) :
    (publishPos v P R).paused = v.paused := by
  unfold publishPos; split <;> rfl

@[simp] lemma publishPos_index (v : Voice) (P : Int) (R : Nat) :
    (publishPos v P R).index = v.index := by
  unfold publishPos; split <;> rfl

@[simp] lemma publishPos_shared_paused (v : Voice) (P : Int) (R : Nat) :
    (publishPos v P R).shared.paused = v.shared.paused := by
  unfold publishPos; split <;> rfl

lemma publishPos_dead {v : Voice} {P : Int} {R : Nat} (h : v.alive = false) :
    publishPos v P R = v := by
  unfold publishPos
  rw [if_neg (by simp [h])]

lemma publishPos_pos {v : Voice} {P : Int} {R : Nat} (h : v.alive = true) :
    (publishPos v P R).shared.position =
      u32OfI16 (rendererPosition v (deltaI16 P R)) := by
  unfold publishPos
  rw [if_pos (by simp [h])]

lemma renderRunStereo_fields {P : Int} {R : Nat} :
    ∀ (xs : List Int) {m : Nat} {v v' : Voice} {out : List Int} {n : Nat},
    renderRunStereo P R v m xs = .ok (v', out, n) →
    v'.queue = v.queue ∧ v'.alive = v.alive ∧
    (v.alive = false → v'.shared = v.shared) ∧
    v'.shared.position = v.shared.position
  | [], m, v, v', out, n, h => by
      unfold renderRunStereo at h
      simp only [Except.ok.injEq, Prod.mk.injEq] at h
      obtain ⟨h1, h2, h3⟩ := h
      subst h1
      simp
  | [x], m, v, v', out, n, h => by
      unfold renderRunStereo at h
      simp only [Except.ok.injEq, Prod.mk.injEq] at h
      obtain ⟨h1, h2, h3⟩ := h
      subst h1
      simp
  | x :: y :: xs, m, v, v', out, n, h => by
      unfold renderRunStereo at h
      cases hf : frame v (posI16 m P R) (deltaI16 P R) with
      | error e =>
          rw [hf] at h
          exact absurd h (by simp)
      | ok p =>
          obtain ⟨of, v1⟩ := p
          rw [hf] at h
          cases of with
          | none =>
              simp only [Except.ok.injEq, Prod.mk.injEq] at h
              obtain ⟨h1, h2, h3⟩ := h
              subst h1
              obtain ⟨e1, e2, e3, e4, e5, e6, e7, e8, e9, e10⟩ := frame_fields hf
              exact ⟨e3, e5, fun hd => e9 hd, e10⟩
          | some f =>
              simp only [] at h
              cases hr : renderRunStereo P R (update_and_get v1 f).2 (m + 1) xs with
              | error e =>
                  rw [hr] at h
                  exact absurd h (by simp)
              | ok q =>
                  obtain ⟨v2, rest, k⟩ := q
                  rw [hr] at h
                  simp only [Except.ok.injEq, Prod.mk.injEq] at h
                  obtain ⟨h1, h2, h3⟩ := h
                  subst h1
                  obtain ⟨e1, e2, e3, e4, e5, e6, e7, e8, e9, e10⟩ := frame_fields hf
                  obtain ⟨g1, g2, g3, g4⟩ := renderRunStereo_fields xs hr
                  simp only [update_and_get] at g1 g2 g3 g4
                  exact ⟨g1.trans e3, g2.trans e5,
                    fun hd => (g3 (e5.trans hd)).trans (e9 hd), g4.trans e10⟩

/-! ### Concrete voices used by counterexamples and witnesses -/

/-- A 5-tick clip of constant frames. -/
def clip5 : AudioClip := ⟨5, fun _ => ⟨1, 1⟩⟩

/-- A 2-tick clip of constant value 3 (spec example 3 shape). -/
def clip3 : AudioClip := ⟨2, fun _ => ⟨3, 3⟩⟩

/-- Configuration with a zero-capacity command ring. -/
def paramsCap0 : MusicParams :=
  { loop_mix_time := -1, amplifier := 1, playback_rate := 1, command_buffer_size := 0 }

/-- A fresh voice with a zero-capacity command ring. -/
def voiceCap0 : Voice := Music.new clip5 paramsCap0

/-- A fresh voice with the default configuration. -/
def voiceDefault : Voice := Music.new clip5 MusicParams.default

/-! ### Claim theorems -/

/-- Claim C5: every control-handle enqueue operation (play, pause,
setAmplifier, seekTo, setLowPass, fadeIn, fadeOut) fails with the
queue-full error if and only if the bounded channel has no free capacity;
on failure nothing is applied and the queued commands are unchanged (push
is a pure total function returning the old state's error, so it cannot
block), and the single error value is the only error ever returned.  All
seven operations are the same bounded push of their command. -/
theorem push_queue_full_iff :
    (∀ (v : Voice) (c : MusicCommand),
      (Music.push v c = .error () ↔ v.capacity ≤ v.queue.length) ∧
      (v.queue.length < v.capacity →
        Music.push v c = .ok { v with queue := v.queue ++ [c] })) ∧
    (∀ (v : Voice) (a t l d : Int),
      Music.play v = Music.push v .Resume ∧
      Music.pauseCmd v = Music.push v .Pause ∧
      Music.set_amplifier v a = Music.push v (.SetAmplifier a) ∧
      Music.seek_to v t = Music.push v (.SeekTo t) ∧
      Music.set_low_pass v l = Music.push v (.SetLowPass l) ∧
      Music.fade_in v d = Music.push v (.FadeIn d) ∧
      Music.fade_out v d = Music.push v (.FadeOut d)) := by
  constructor
  · intro v c
    constructor
    · constructor
      · intro h
        by_contra hlt
        unfold Music.push at h
        rw [if_pos (by omega)] at h
        exact absurd h (by simp)
      · intro h
        unfold Music.push
        rw [if_neg (by omega)]
    · intro h
      unfold Music.push
      rw [if_pos h]
  · intro v a t l d
    exact ⟨rfl, rfl, rfl, rfl, rfl, rfl, rfl⟩

/-- Witness for C5 at concrete inputs: a zero-capacity ring rejects a
pause command with the queue-full error, and a default ring accepts it. -/
theorem push_queue_full_iff_witness :
    Music.push voiceCap0 .Pause = .error () ∧
    Music.push voiceDefault .Pause =
      .ok { voiceDefault with queue := voiceDefault.queue ++ [.Pause] } :=
  ⟨(push_queue_full_iff.1 voiceCap0 .Pause).1.mpr
      (by simp [voiceCap0, Music.new, paramsCap0]),
   (push_queue_full_iff.1 voiceDefault .Pause).2
      (by simp [voiceDefault, Music.new, MusicParams.default])⟩

/-- Claim C4: any command sequence that fits the remaining channel capacity
enqueues in FIFO order; the next render invocation drains the whole queue —
`prepare` is exactly the FIFO fold of the drained commands over the
rate-adapted state with the ring emptied, with no condition on the pause
flag (draining is unconditional even when paused) — and any successful
render call leaves the queue empty, so each command is applied exactly
once. -/
theorem commands_fifo_once :
    (∀ (v : Voice) (cs : List MusicCommand),
      v.queue.length + cs.length ≤ v.capacity →
      pushAll v cs = .ok { v with queue := v.queue ++ cs }) ∧
    (∀ (w : Voice) (R : Nat),
      prepare w R =
        w.queue.foldlM (applyCommand R) { rateAdapt w R with queue := [] }) ∧
    (∀ (w : Voice) (R : Nat) (buf : List Int) (v' : Voice) (out : List Int),
      render_mono w R buf = .ok (v', out) → v'.queue = []) := by
  refine ⟨fun v cs h => pushAll_ok cs v h, ?_, ?_⟩
  · intro w R
    unfold prepare drain
    rw [(rateAdapt_fields w R).1]
  · intro w R buf v' out h
    unfold render_mono at h
    cases hp : prepare w R with
    | error e =>
        rw [hp] at h
        exact absurd h (by simp)
    | ok v1 =>
        rw [hp] at h
        have hq1 : v1.queue = [] := by
          unfold prepare drain at hp
          obtain ⟨g1, g2, g3, g4, g5, g6, g7, g8⟩ := foldApply_fields _ hp
          simpa using g1
        simp only [] at h
        split at h
        · simp only [Except.ok.injEq, Prod.mk.injEq] at h
          obtain ⟨h1, h2⟩ := h
          rw [← h1]
          exact hq1
        · cases hr : renderRun v1.settings.playback_rate R v1 v1.index buf with
          | error e =>
              rw [hr] at h
              exact absurd h (by simp)
          | ok q =>
              obtain ⟨v2, out2, n⟩ := q
              rw [hr] at h
              simp only [Except.ok.injEq, Prod.mk.injEq] at h
              obtain ⟨h1, h2⟩ := h
              rw [← h1]
              rw [publishPos_queue]
              exact ((renderRun_fields buf hr).2.2.1).trans hq1

/-- Witness for C4 at concrete inputs: pushing Pause then SetAmplifier 3
into a fresh default voice succeeds with the two commands queued in order;
prepare is the FIFO fold; a render call leaves the queue empty. -/
theorem commands_fifo_once_witness :
    pushAll voiceDefault [.Pause, .SetAmplifier 3] =
      .ok { voiceDefault with queue := voiceDefault.queue ++ [.Pause, .SetAmplifier 3] } ∧
    prepare voiceDefault 10 =
      voiceDefault.queue.foldlM (applyCommand 10)
        { rateAdapt voiceDefault 10 with queue := [] } :=
  ⟨commands_fifo_once.1 voiceDefault [.Pause, .SetAmplifier 3]
      (by simp [voiceDefault, Music.new, MusicParams.default]),
   commands_fifo_once.2.1 voiceDefault 10⟩

/-- Claim C9: after the control handle is dropped (the strong reference to
the shared status block is gone), `alive()` reports false, and no renderer
operation (`prepare`, `render_mono`, `render_stereo`) changes the shared
status block — every publish attempt upgrades the dead weak reference and
becomes a no-op — nor can liveness ever come back. -/
theorem dropped_handle_frozen :
    ∀ (v : Voice),
    rendererAlive (Music.dropHandle v) = false ∧
    (∀ (R : Nat) (v' : Voice), prepare (Music.dropHandle v) R = .ok v' →
      v'.shared = v.shared ∧ rendererAlive v' = false) ∧
    (∀ (R : Nat) (buf : List Int) (v' : Voice) (out : List Int),
      render_mono (Music.dropHandle v) R buf = .ok (v', out) →
      v'.shared = v.shared ∧ rendererAlive v' = false) ∧
    (∀ (R : Nat) (buf : List Int) (v' : Voice) (out : List Int),
      render_stereo (Music.dropHandle v) R buf = .ok (v', out) →
      v'.shared = v.shared ∧ rendererAlive v' = false) := by
  intro v
  have hprep : ∀ (R : Nat) (v' : Voice), prepare (Music.dropHandle v) R = .ok v' →
      v'.shared = v.shared ∧ v'.alive = false := by
    intro R v' h
    unfold prepare drain at h
    obtain ⟨g1, g2, g3, g4, g5, g6, g7, g8⟩ := foldApply_fields _ h
    have hA : (rateAdapt (Music.dropHandle v) R).alive = false :=
      ((rateAdapt_fields (Music.dropHandle v) R).2.2.1).trans rfl
    have hAs : (rateAdapt (Music.dropHandle v) R).shared = v.shared :=
      ((rateAdapt_fields (Music.dropHandle v) R).2.1).trans rfl
    constructor
    · exact (g7 (by simpa using hA)).trans (by simpa using hAs)
    · exact g3.trans (by simpa using hA)
  refine ⟨rfl, fun R v' h => hprep R v' h, ?_, ?_⟩
  · intro R buf v' out h
    unfold render_mono at h
    cases hp : prepare (Music.dropHandle v) R with
    | error e =>
        rw [hp] at h
        exact absurd h (by simp)
    | ok v1 =>
        rw [hp] at h
        obtain ⟨hs1, ha1⟩ := hprep R v1 hp
        simp only [] at h
        split at h
        · simp only [Except.ok.injEq, Prod.mk.injEq] at h
          obtain ⟨h1, h2⟩ := h
          rw [← h1]
          exact ⟨hs1, ha1⟩
        · cases hr : renderRun v1.settings.playback_rate R v1 v1.index buf with
          | error e =>
              rw [hr] at h
              exact absurd h (by simp)
          | ok q =>
              obtain ⟨v2, out2, n⟩ := q
              rw [hr] at h
              simp only [Except.ok.injEq, Prod.mk.injEq] at h
              obtain ⟨h1, h2⟩ := h
              rw [← h1]
              obtain ⟨f1, f2, f3, f4, f5, f6, f7, f8, f9⟩ := renderRun_fields buf hr
              have ha2 : v2.alive = false := f5.trans ha1
              rw [publishPos_dead ha2]
              exact ⟨(f8 ha1).trans hs1, ha2⟩
  · intro R buf v' out h
    unfold render_stereo at h
    cases hp : prepare (Music.dropHandle v) R with
    | error e =>
        rw [hp] at h
        exact absurd h (by simp)
    | ok v1 =>
        rw [hp] at h
        obtain ⟨hs1, ha1⟩ := hprep R v1 hp
        simp only [] at h
        split at h
        · simp only [Except.ok.injEq, Prod.mk.injEq] at h
          obtain ⟨h1, h2⟩ := h
          rw [← h1]
          exact ⟨hs1, ha1⟩
        · cases hr : renderRunStereo v1.settings.playback_rate R v1 v1.index buf with
          | error e =>
              rw [hr] at h
              exact absurd h (by simp)
          | ok q =>
              obtain ⟨v2, out2, n⟩ := q
              rw [hr] at h
              simp only [Except.ok.injEq, Prod.mk.injEq] at h
              obtain ⟨h1, h2⟩ := h
              rw [← h1]
              obtain ⟨f1, f2, f3, f4⟩ := renderRunStereo_fields buf hr
              have ha2 : v2.alive = false := f2.trans ha1
              rw [publishPos_dead ha2]
              exact ⟨(f3 ha1).trans hs1, ha2⟩

/-- The dropped default voice after one render call at rate 10 (only the
remembered destination rate changes). -/
def voiceDroppedPrep : Voice :=
  { Music.dropHandle voiceDefault with last_sample_rate := 10 }

/-- Witness for C9 at a concrete input: the dropped default voice reports
dead, and a mono render call at rate 10 leaves the shared block unchanged
and stays dead. -/
theorem dropped_handle_frozen_witness :
    rendererAlive (Music.dropHandle voiceDefault) = false ∧
    voiceDroppedPrep.shared = voiceDefault.shared ∧
    rendererAlive voiceDroppedPrep = false :=
  ⟨(dropped_handle_frozen voiceDefault).1,
   (dropped_handle_frozen voiceDefault).2.2.1 10 [0] voiceDroppedPrep [0] rfl⟩

/-- Claim C6: when an active fade-out reaches its target during sample
generation, the fade is cleared, the voice pauses — local flag always,
shared flag when the handle is alive, with the shared position untouched by
the step — and the step signals end-of-stream; and any further render call
in a paused state (with an empty queue and unchanged rate) returns the
state and the buffer unchanged, adding no samples. -/
theorem fadeout_complete_pauses :
    (∀ (v : Voice) (pos delta : Int),
      v.fade_time < 0 → wrap32 (v.fade_current - 1) ≤ v.fade_time →
      (v.clip.sample pos).isSome →
      ∃ v', frame v pos delta = .ok (none, v') ∧ v'.paused = true ∧
        v'.fade_time = 0 ∧ v'.shared.position = v.shared.position ∧
        (v.alive = true → v'.shared.paused = true)) ∧
    (∀ (v : Voice) (R : Nat) (buf : List Int),
      v.paused = true → v.queue = [] → v.last_sample_rate = R →
      render_mono v R buf = .ok (v, buf)) := by
  constructor
  · intro v pos delta h1 h2 h3
    obtain ⟨f, hf⟩ := Option.isSome_iff_exists.mp h3
    refine ⟨_, frame_fadeout_done hf h1 h2, by simp, by simp, by simp,
      fun ha => by simp [ha]⟩
  · intro v R buf hp hq hr
    exact render_mono_paused hp hq hr

/-- A playing voice whose fade-out is one sample from its target. -/
def voiceFade : Voice :=
  { voiceDefault with paused := false, fade_time := -2, fade_current := -1 }

/-- Witness for C6 at a concrete input: the next generated sample of
`voiceFade` completes the fade-out (pausing locally and shared, clearing
the fade, end-of-stream), and a paused render call is a no-op. -/
theorem fadeout_complete_pauses_witness :
    (∃ v', frame voiceFade 0 1 = .ok (none, v') ∧ v'.paused = true ∧
      v'.fade_time = 0 ∧ v'.shared.position = voiceFade.shared.position ∧
      (voiceFade.alive = true → v'.shared.paused = true)) ∧
    render_mono voiceDefault 1 [5] = .ok (voiceDefault, [5]) :=
  ⟨fadeout_complete_pauses.1 voiceFade 0 1
      (by norm_num [voiceFade, voiceDefault, Music.new])
      (by norm_num [voiceFade, voiceDefault, Music.new, wrap32])
      (by norm_num [voiceFade, voiceDefault, Music.new, clip5, AudioClip.sample]),
   fadeout_complete_pauses.2 voiceDefault 1 [5] rfl rfl rfl⟩

/-- Claim C7 (amended): applying a drained FadeIn(d) command at destination
rate R clears the local pause flag; the shared flag is written only when
the voice was locally paused, but in any state where an unpaused local flag
implies an unpaused shared flag (an invariant of all states the voice can
reach) both flags end unpaused, provided the handle is alive.  The fade
target is set to the 16-bit two's-complement wrap of `d * wrap16(R)` (not
`d * R` in general), which equals `d * R` exactly when `R` and the product
fit the `i16` range, and the fade progress is reset to zero. -/
theorem fadein_applied :
    ∀ (v : Voice) (d : Int) (R : Nat),
    v.queue = [.FadeIn d] → v.last_sample_rate = R → v.alive = true →
    (v.paused = false → v.shared.paused = false) →
    ∃ v', prepare v R = .ok v' ∧ v'.paused = false ∧ v'.shared.paused = false ∧
      v'.fade_time = wrap16 (d * wrap16 R) ∧ v'.fade_current = 0 ∧
      (0 ≤ d * (R : Int) → d * (R : Int) ≤ 32767 → (R : Int) ≤ 32767 →
        v'.fade_time = d * R) := by
  intro v d R hq hr hal hinv
  unfold prepare drain
  rw [rateAdapt_same hr, hq]
  simp only [List.foldlM_cons, List.foldlM_nil]
  unfold applyCommand
  simp only []
  by_cases hvp : v.paused = true
  · rw [if_pos hvp]
    refine ⟨_, rfl, by simp, by simp [hal], rfl, rfl, ?_⟩
    intro h1 h2 h3
    show wrap16 (d * wrap16 (R : Int)) = d * R
    rw [wrap16_eq_self (by omega) h3]
    exact wrap16_eq_self (by omega) h2
  · rw [if_neg hvp]
    have hvp2 : v.paused = false := by
      cases hb : v.paused
      · rfl
      · exact absurd hb hvp
    refine ⟨_, rfl, by simp [hvp2], by simp [hinv hvp2], rfl, rfl, ?_⟩
    intro h1 h2 h3
    show wrap16 (d * wrap16 (R : Int)) = d * R
    rw [wrap16_eq_self (by omega) h3]
    exact wrap16_eq_self (by omega) h2

/-- A fresh voice with a FadeIn(1000) command queued, seen at rate 1000. -/
def voiceFadeInBig : Voice :=
  { Music.new clip5 MusicParams.default with queue := [.FadeIn 1000], last_sample_rate := 1000 }

/-- Counterexample to C7 as stated: draining FadeIn(1000) at destination
rate 1000 sets the fade target to 16960 ticks — the 16-bit wrap of
1000000 — not to d * R = 1000000. -/
theorem fadein_target_overflow_cex :
    (prepare voiceFadeInBig 1000).toOption.map Voice.fade_time = some 16960 ∧
    (16960 : Int) ≠ 1000 * 1000 :=
  ⟨rfl, by decide⟩

/-- A fresh voice with a FadeIn(2) command queued, seen at rate 10 (spec
example 4). -/
def voiceFadeIn2 : Voice :=
  { Music.new clip5 MusicParams.default with queue := [.FadeIn 2], last_sample_rate := 10 }

/-- Witness for the amended C7 at the spec's example: fadeIn(2) at rate 10
unpauses the voice and sets the fade target to wrap16(2 * wrap16 10) = 20
ticks (the in-range conjunct applies since 20 and 10 fit i16). -/
theorem fadein_applied_witness :
    ∃ v', prepare voiceFadeIn2 10 = .ok v' ∧ v'.paused = false ∧
      v'.shared.paused = false ∧ v'.fade_time = wrap16 (2 * wrap16 (10 : Nat)) ∧
      v'.fade_current = 0 ∧
      (0 ≤ 2 * ((10 : Nat) : Int) → 2 * ((10 : Nat) : Int) ≤ 32767 →
        ((10 : Nat) : Int) ≤ 32767 → v'.fade_time = 2 * (10 : Nat)) :=
  fadein_applied voiceFadeIn2 2 10 rfl rfl rfl
    (by intro h; simp [voiceFadeIn2, Music.new, MusicParams.default] at h)

/-- Claim C10 (amended): a factory-fresh voice starts paused (local flag,
shared flag, and the handle's paused() read) with sample index 0; every
render call performed while paused, before a Resume or FadeIn command is
drained, leaves the output buffer unchanged and the voice paused; the
sample index additionally stays 0 provided no SeekTo command is drained —
a drained SeekTo moves the index even while paused, which the original
claim ruled out. -/
theorem initial_paused_render_noop :
    (∀ (clip : AudioClip) (ps : MusicParams),
      (Music.new clip ps).paused = true ∧ (Music.new clip ps).index = 0 ∧
      (Music.new clip ps).shared.paused = true ∧
      Music.isPaused (Music.new clip ps) = true) ∧
    (∀ (v : Voice) (R : Nat) (buf : List Int) (v' : Voice) (out : List Int),
      v.paused = true → (∀ c ∈ v.queue, unpauses c = false) →
      render_mono v R buf = .ok (v', out) →
      out = buf ∧ v'.paused = true ∧
      (v.index = 0 → (∀ c ∈ v.queue, isSeek c = false) → v'.index = 0)) := by
  constructor
  · intro clip ps
    exact ⟨rfl, rfl, rfl, rfl⟩
  · intro v R buf v' out hp hun h
    obtain ⟨q1, q2, q3, q4, q5, q6, q7, q8, q9, q10⟩ := rateAdapt_fields v R
    unfold render_mono at h
    cases hprep : prepare v R with
    | error e =>
        rw [hprep] at h
        exact absurd h (by simp)
    | ok v1 =>
        rw [hprep] at h
        have hfold := hprep
        unfold prepare drain at hfold
        have hmain := foldApply_paused (rateAdapt v R).queue
          (by rw [q1]; exact hun)
          (show ({ rateAdapt v R with queue := ([] : List MusicCommand) }).paused = true from
            q7.trans hp) hfold
        obtain ⟨hp1, hidx1⟩ := hmain
        simp only [] at h
        rw [if_pos hp1] at h
        simp only [Except.ok.injEq, Prod.mk.injEq] at h
        obtain ⟨e1, e2⟩ := h
        refine ⟨e2.symm, ?_, ?_⟩
        · rw [← e1]
          exact hp1
        · intro hz hns
          rw [← e1]
          have := hidx1 (by rw [q1]; exact hns)
          rw [this]
          exact q10 hz

/-- Counterexample to C10 as stated: on a fresh default voice, enqueuing
SeekTo(5) and rendering once at rate 10 — still paused, no Resume or
FadeIn ever drained — leaves the buffer unchanged but moves the sample
index from 0 to 50. -/
theorem paused_seekto_index_cex :
    ((do
      let v1 ← Music.seek_to (Music.new clip5 MusicParams.default) 5
      render_mono v1 10 [0, 0] : Except Unit (Voice × List Int)).toOption.map
        (fun p => (p.1.index, p.2))) = some (50, [0, 0]) ∧ (50 : Nat) ≠ 0 :=
  ⟨by decide, by decide⟩

/-- A fresh default voice with a Pause command queued. -/
def voicePauseQ : Voice := { voiceDefault with queue := [.Pause] }

/-- Witness for the amended C10 at a concrete input: the fresh default
voice is paused at index 0, and rendering it with only a Pause queued
returns the buffer untouched, still paused at index 0. -/
theorem initial_paused_render_noop_witness :
    ((Music.new clip5 MusicParams.default).paused = true ∧
      (Music.new clip5 MusicParams.default).index = 0 ∧
      (Music.new clip5 MusicParams.default).shared.paused = true ∧
      Music.isPaused (Music.new clip5 MusicParams.default) = true) ∧
    ([7] : List Int) = [7] ∧ voiceDefault.paused = true ∧
    (voicePauseQ.index = 0 → (∀ c ∈ voicePauseQ.queue, isSeek c = false) →
      voiceDefault.index = 0) :=
  ⟨(initial_paused_render_noop.1 clip5 MusicParams.default),
   (initial_paused_render_noop.2 voicePauseQ 1 [7] voiceDefault [7] rfl
      (by decide) rfl)⟩

/-- The fuel-based logarithm is the binary logarithm: two-sided power
bounds whenever `1 ≤ n ≤ fuel`. -/
lemma log2fuel_spec : ∀ (fuel n : Nat), 1 ≤ n → n ≤ fuel →
    2 ^ log2fuel fuel n ≤ n ∧ n < 2 ^ (log2fuel fuel n + 1) := by
  intro fuel
  induction fuel with
  | zero => intro n h1 h2; omega
  | succ fuel ih =>
      intro n h1 h2
      simp only [log2fuel]
      split
      · next h =>
          simp only [pow_zero, zero_add, pow_one]
          omega
      · next h =>
          obtain ⟨ha, hb⟩ := ih (n / 2) (by omega) (by omega)
          rw [pow_succ, pow_succ]
          exact ⟨by omega, by omega⟩

/-- Lower power bound of `natLog2`. -/
lemma natLog2_le {n : Nat} (h : 1 ≤ n) : 2 ^ natLog2 n ≤ n :=
  (log2fuel_spec n n h le_rfl).1

/-- Upper power bound of `natLog2`. -/
lemma natLog2_lt {n : Nat} (h : 1 ≤ n) : n < 2 ^ (natLog2 n + 1) :=
  (log2fuel_spec n n h le_rfl).2

/-- `qOfInt` is the integer cast. -/
lemma qOfInt_eq (n : Int) : qOfInt n = (n : ℚ) := by
  unfold qOfInt
  rw [Rat.mkRat_eq_div]
  simp

/-- `qOfNat` is the natural cast. -/
lemma qOfNat_eq (n : Nat) : qOfNat n = (n : ℚ) := by
  unfold qOfNat
  rw [qOfInt_eq]
  simp

/-- `qadd` is rational addition. -/
lemma qadd_eq (a b : ℚ) : qadd a b = a + b := by
  have ha : ((a.den : ℚ)) ≠ 0 := Nat.cast_ne_zero.mpr a.den_nz
  have hb : ((b.den : ℚ)) ≠ 0 := Nat.cast_ne_zero.mpr b.den_nz
  unfold qadd
  rw [Rat.mkRat_eq_div]
  conv_rhs => rw [← Rat.num_div_den a, ← Rat.num_div_den b]
  push_cast
  field_simp

/-- `qmul` is rational multiplication. -/
lemma qmul_eq (a b : ℚ) : qmul a b = a * b := by
  have ha : ((a.den : ℚ)) ≠ 0 := Nat.cast_ne_zero.mpr a.den_nz
  have hb : ((b.den : ℚ)) ≠ 0 := Nat.cast_ne_zero.mpr b.den_nz
  unfold qmul
  rw [Rat.mkRat_eq_div]
  conv_rhs => rw [← Rat.num_div_den a, ← Rat.num_div_den b]
  push_cast
  field_simp

/-- `qsub` is rational subtraction. -/
lemma qsub_eq (a b : ℚ) : qsub a b = a - b := by
  have ha : ((a.den : ℚ)) ≠ 0 := Nat.cast_ne_zero.mpr a.den_nz
  have hb : ((b.den : ℚ)) ≠ 0 := Nat.cast_ne_zero.mpr b.den_nz
  unfold qsub
  rw [Rat.mkRat_eq_div]
  conv_rhs => rw [← Rat.num_div_den a, ← Rat.num_div_den b]
  push_cast
  field_simp
  ring

/-- `floorQ` is the floor. -/
lemma floorQ_eq (q : ℚ) : floorQ q = ⌊q⌋ := by
  unfold floorQ
  rw [Rat.floor_def]

/-- `pow2` is the integer power of two. -/
lemma pow2_eq (k : Int) : pow2 k = (2 : ℚ) ^ k := by
  unfold pow2
  split
  · next h =>
      rw [qOfNat_eq]
      push_cast
      rw [← zpow_natCast (2 : ℚ) k.toNat, Int.toNat_of_nonneg h]
  · next h =>
      rw [Rat.mkRat_eq_div]
      push_cast
      rw [← zpow_natCast (2 : ℚ) (-k).toNat, Int.toNat_of_nonneg (by omega),
        one_div, ← zpow_neg, neg_neg]

/-- `pow2` is positive. -/
lemma pow2_pos (k : Int) : 0 < pow2 k := by
  rw [pow2_eq]
  positivity

/-- The half-integer literal of the tie test. -/
lemma mkRat_one_two : (mkRat 1 2 : ℚ) = 1 / 2 := by
  rw [Rat.mkRat_eq_div]
  norm_num

/-- `roundNearestEvenInt` through standard rational operations. -/
lemma roundNEI_eq (x : ℚ) : roundNearestEvenInt x =
    if x - ((⌊x⌋ : Int) : ℚ) < 1 / 2 then ⌊x⌋
    else if (1 : ℚ) / 2 < x - ((⌊x⌋ : Int) : ℚ) then ⌊x⌋ + 1
    else if ⌊x⌋ % 2 = 0 then ⌊x⌋ else ⌊x⌋ + 1 := by
  unfold roundNearestEvenInt
  simp only [qsub_eq, qOfInt_eq, floorQ_eq, mkRat_one_two]

/-- Rounding an integer to the nearest integer is the identity. -/
lemma roundNEI_intCast (n : Int) : roundNearestEvenInt ((n : ℚ)) = n := by
  rw [roundNEI_eq, Int.floor_intCast, sub_self, if_pos (by norm_num)]

/-- The nearest integer is within a half. -/
lemma abs_roundNEI_sub (x : ℚ) : |((roundNearestEvenInt x : Int) : ℚ) - x| ≤ 1 / 2 := by
  have h1 : ((⌊x⌋ : Int) : ℚ) ≤ x := Int.floor_le x
  have h2 : x < ⌊x⌋ + 1 := Int.lt_floor_add_one x
  rw [roundNEI_eq]
  split_ifs with c1 c2 c3
  · rw [abs_le]
    constructor <;> linarith
  · rw [abs_le]
    push_cast
    constructor <;> linarith [not_lt.mp c1]
  · rw [abs_le]
    constructor <;> linarith [not_lt.mp c2]
  · rw [abs_le]
    push_cast
    constructor <;> linarith [not_lt.mp c1]

/-- Rounding fixes zero. -/
lemma roundF64_zero : roundF64 0 = 0 := by
  unfold roundF64
  rw [if_pos rfl]

/-- `roundF64` through standard rational operations, away from zero. -/
lemma roundF64_eq (q : ℚ) (hq : q ≠ 0) : roundF64 q =
    (2 : ℚ) ^ (ratExp q - 52) *
      ((roundNearestEvenInt (q / (2 : ℚ) ^ (ratExp q - 52)) : Int) : ℚ) := by
  unfold roundF64
  rw [if_neg hq]
  rw [qmul_eq, qmul_eq, qOfInt_eq, pow2_eq, pow2_eq]
  rw [show (52 : Int) - ratExp q = -(ratExp q - 52) from by ring]
  rw [zpow_neg]
  rw [← div_eq_mul_inv]

/-- Values on the 53-bit grid of their binade are fixed by rounding. -/
lemma roundF64_eq_self {q : ℚ} (n : Int)
    (h : ((n : Int) : ℚ) * (2 : ℚ) ^ (ratExp q - 52) = q) : roundF64 q = q := by
  by_cases hq : q = 0
  · rw [hq, roundF64_zero]
  · rw [roundF64_eq q hq]
    have hu : ((2 : ℚ) ^ (ratExp q - 52)) ≠ 0 := by positivity
    have hdiv : q / (2 : ℚ) ^ (ratExp q - 52) = ((n : Int) : ℚ) := by
      rw [div_eq_iff hu]
      exact h.symm
    rw [hdiv, roundNEI_intCast, mul_comm]
    exact h

/-- The binade exponent of a positive natural is its binary logarithm. -/
lemma ratExp_natCast {n : Nat} (h : 1 ≤ n) : ratExp ((n : ℚ)) = (natLog2 n : Int) := by
  unfold ratExp
  simp only [Rat.num_natCast, Rat.den_natCast, Int.natAbs_ofNat]
  have h1 : natLog2 1 = 0 := rfl
  rw [h1]
  simp only [Nat.cast_zero, sub_zero]
  have hcond : pow2 ((natLog2 n : Int)) ≤ |((n : ℚ))| := by
    rw [abs_of_nonneg (by positivity), pow2_eq, zpow_natCast]
    exact_mod_cast natLog2_le h
  rw [if_pos hcond]

/-- Naturals below `2 ^ 53` are exact binary64 values. -/
lemma roundF64_natCast {n : Nat} (h : n < 2 ^ 53) : roundF64 ((n : ℚ)) = ((n : ℚ)) := by
  rcases Nat.eq_zero_or_pos n with h0 | h1
  · subst h0
    simp only [Nat.cast_zero]
    exact roundF64_zero
  · have hl : natLog2 n ≤ 52 := by
      by_contra hc
      push_neg at hc
      have h2 : (2 : ℕ) ^ 53 ≤ 2 ^ natLog2 n := Nat.pow_le_pow_right (by omega) (by omega)
      have h3 := natLog2_le h1
      omega
    apply roundF64_eq_self ((n : Int) * 2 ^ (52 - natLog2 n))
    rw [ratExp_natCast h1]
    push_cast
    rw [mul_assoc, ← zpow_natCast (2 : ℚ) (52 - natLog2 n),
      ← zpow_add₀ (by norm_num : (2 : ℚ) ≠ 0)]
    rw [show (((52 - natLog2 n : ℕ)) : Int) + ((natLog2 n : Int) - 52) = 0 from by
      rw [Nat.cast_sub hl]; ring]
    rw [zpow_zero, mul_one]

/-- `ratTrunc` on integers is the identity. -/
lemma ratTrunc_intCast (n : Int) : ratTrunc ((n : ℚ)) = n := by
  unfold ratTrunc
  rw [Rat.num_intCast, Rat.den_intCast]
  simp

/-- `ratTrunc` on naturals is the identity. -/
lemma ratTrunc_natCast (n : Nat) : ratTrunc ((n : ℚ)) = (n : Int) := by
  rw [show ((n : ℚ)) = (((n : Int)) : ℚ) from by push_cast; rfl]
  exact ratTrunc_intCast (n : Int)

/-- Truncating a rational in `[0, 1)` gives zero. -/
lemma ratTrunc_eq_zero {q : ℚ} (h0 : 0 ≤ q) (h1 : q < 1) : ratTrunc q = 0 := by
  unfold ratTrunc
  apply Int.tdiv_eq_zero_of_lt
  · exact Rat.num_nonneg.mpr h0
  · have hd : (0 : ℚ) < ((q.den : Nat) : ℚ) :=
      Nat.cast_pos.mpr (Nat.pos_of_ne_zero q.den_nz)
    have h2 := h1
    rw [← Rat.num_div_den q, div_lt_one hd] at h2
    exact_mod_cast h2

/-- Absolute value of a rational through numerator and denominator. -/
lemma abs_rat_eq (q : ℚ) : |q| = ((q.num.natAbs : Nat) : ℚ) / ((q.den : Nat) : ℚ) := by
  conv_lhs => rw [← Rat.num_div_den q]
  rw [abs_div]
  rw [abs_of_pos (show (0 : ℚ) < ((q.den : Nat) : ℚ) from
    Nat.cast_pos.mpr (Nat.pos_of_ne_zero q.den_nz))]
  congr 1
  rw [show ((q.num.natAbs : Nat) : ℚ) = |((q.num : Int) : ℚ)| from by simp [Int.cast_natAbs]]

/-- The binade exponent bounds its value from below. -/
lemma ratExp_le {q : ℚ} (hq : q ≠ 0) : (2 : ℚ) ^ (ratExp q) ≤ |q| := by
  have ha : 1 ≤ q.num.natAbs := by
    have hn : q.num ≠ 0 := Rat.num_ne_zero.mpr hq
    omega
  have hb : 1 ≤ q.den := Nat.pos_of_ne_zero q.den_nz
  have hbq : (0 : ℚ) < ((q.den : Nat) : ℚ) := Nat.cast_pos.mpr hb
  unfold ratExp
  split
  · next h => rwa [pow2_eq] at h
  · next h =>
      rw [abs_rat_eq]
      rw [show (natLog2 q.num.natAbs : Int) - (natLog2 q.den : Int) - 1
        = (natLog2 q.num.natAbs : Int) - ((natLog2 q.den + 1 : Nat) : Int) from by
          push_cast; ring]
      rw [zpow_sub₀ (by norm_num : (2 : ℚ) ≠ 0), zpow_natCast, zpow_natCast]
      rw [div_le_div_iff₀ (by positivity) hbq]
      have hnat : 2 ^ natLog2 q.num.natAbs * q.den
          ≤ q.num.natAbs * 2 ^ (natLog2 q.den + 1) :=
        Nat.mul_le_mul (natLog2_le ha) (le_of_lt (natLog2_lt hb))
      exact_mod_cast hnat

/-- The nearest integer of a nonnegative rational is nonnegative. -/
lemma roundNEI_nonneg {x : ℚ} (h : 0 ≤ x) : 0 ≤ roundNearestEvenInt x := by
  have h1 : 0 ≤ ⌊x⌋ := Int.floor_nonneg.mpr h
  rw [roundNEI_eq]
  split_ifs <;> omega

/-- Rounding preserves nonnegativity. -/
lemma roundF64_nonneg {q : ℚ} (h : 0 ≤ q) : 0 ≤ roundF64 q := by
  by_cases hq : q = 0
  · rw [hq, roundF64_zero]
  · rw [roundF64_eq q hq]
    have h1 : (0 : ℚ) ≤ (2 : ℚ) ^ (ratExp q - 52) := by positivity
    have h2 : 0 ≤ roundNearestEvenInt (q / (2 : ℚ) ^ (ratExp q - 52)) :=
      roundNEI_nonneg (div_nonneg h (by positivity))
    exact mul_nonneg h1 (by exact_mod_cast h2)

/-- Relative error bound of binary64 rounding: half an ulp, at most
`|q| * 2⁻⁵³`. -/
lemma abs_roundF64_sub {q : ℚ} (hq : q ≠ 0) :
    |roundF64 q - q| ≤ |q| * (2 : ℚ) ^ (-(53 : Int)) := by
  rw [roundF64_eq q hq]
  have hupos : (0 : ℚ) < (2 : ℚ) ^ (ratExp q - 52) := by positivity
  have hune : ((2 : ℚ) ^ (ratExp q - 52)) ≠ 0 := ne_of_gt hupos
  have key : (2 : ℚ) ^ (ratExp q - 52) *
        ((roundNearestEvenInt (q / (2 : ℚ) ^ (ratExp q - 52)) : Int) : ℚ) - q
      = (2 : ℚ) ^ (ratExp q - 52) *
        (((roundNearestEvenInt (q / (2 : ℚ) ^ (ratExp q - 52)) : Int) : ℚ)
          - q / (2 : ℚ) ^ (ratExp q - 52)) := by
    field_simp
    ring
  rw [key, abs_mul, abs_of_pos hupos]
  have step1 : (2 : ℚ) ^ (ratExp q - 52) *
      |((roundNearestEvenInt (q / (2 : ℚ) ^ (ratExp q - 52)) : Int) : ℚ)
        - q / (2 : ℚ) ^ (ratExp q - 52)|
      ≤ (2 : ℚ) ^ (ratExp q - 52) * (1 / 2) :=
    mul_le_mul_of_nonneg_left (abs_roundNEI_sub _) (le_of_lt hupos)
  have step2 : (2 : ℚ) ^ (ratExp q - 52) * (1 / 2) = (2 : ℚ) ^ (ratExp q - 53) := by
    rw [show ((1 : ℚ) / 2) = (2 : ℚ) ^ (-(1 : Int)) from by
      rw [zpow_neg, zpow_one, one_div]]
    rw [← zpow_add₀ (by norm_num : (2 : ℚ) ≠ 0)]
    rw [show (ratExp q - 52) + (-(1 : Int)) = ratExp q - 53 from by ring]
  have step3 : (2 : ℚ) ^ (ratExp q - 53) ≤ |q| * (2 : ℚ) ^ (-(53 : Int)) := by
    rw [show (ratExp q - 53 : Int) = ratExp q + -(53 : Int) from by ring]
    rw [zpow_add₀ (by norm_num : (2 : ℚ) ≠ 0)]
    exact mul_le_mul_of_nonneg_right (ratExp_le hq) (by positivity)
  calc (2 : ℚ) ^ (ratExp q - 52) *
      |((roundNearestEvenInt (q / (2 : ℚ) ^ (ratExp q - 52)) : Int) : ℚ)
        - q / (2 : ℚ) ^ (ratExp q - 52)|
      ≤ (2 : ℚ) ^ (ratExp q - 52) * (1 / 2) := step1
    _ = (2 : ℚ) ^ (ratExp q - 53) := step2
    _ ≤ |q| * (2 : ℚ) ^ (-(53 : Int)) := step3

/-- The computed `f64` delta of a nonnegative playback rate is
nonnegative. -/
lemma f64delta_nonneg {P : Int} {R : Nat} (hP : 0 ≤ P) : 0 ≤ f64delta P R := by
  unfold f64delta
  apply roundF64_nonneg
  rw [qmul_eq, qOfInt_eq]
  apply mul_nonneg
  · apply roundF64_nonneg
    rw [Rat.mkRat_eq_div]
    positivity
  · exact_mod_cast hP

/-- With `0 ≤ playbackRate < destinationRate ≤ 2³² - 1` the computed `f64`
delta stays strictly below one: the relative rounding errors (at most
`2⁻⁵³` each) cannot bridge the gap `1/destinationRate ≥ 2⁻³²`. -/
lemma f64delta_lt_one {P : Int} {R : Nat} (hP : 0 ≤ P) (hPR : P < (R : Int))
    (hR32 : R ≤ 4294967295) : f64delta P R < 1 := by
  have hR1 : 1 ≤ R := by omega
  have heps : (2 : ℚ) ^ (-(53 : Int)) = 1 / 9007199254740992 := by
    rw [zpow_neg, one_div]
    norm_num
  have hrpos : (0 : ℚ) < ((R : Nat) : ℚ) := Nat.cast_pos.mpr hR1
  have hrne : (((R : Nat) : ℚ)) ≠ 0 := ne_of_gt hrpos
  have hrle : ((R : Nat) : ℚ) ≤ 4294967295 := by exact_mod_cast hR32
  have hp0 : (0 : ℚ) ≤ ((P : Int) : ℚ) := by exact_mod_cast hP
  have hpr : ((P : Int) : ℚ) ≤ ((R : Nat) : ℚ) - 1 := by
    have hPR1 : P ≤ (R : Int) - 1 := by omega
    exact_mod_cast hPR1
  have hx0 : (0 : ℚ) < 1 / ((R : Nat) : ℚ) := by positivity
  have hxne : (1 / ((R : Nat) : ℚ)) ≠ 0 := ne_of_gt hx0
  have hmk : (mkRat 1 R : ℚ) = 1 / ((R : Nat) : ℚ) := by
    rw [Rat.mkRat_eq_div]
    norm_num
  have hd0 : 0 ≤ roundF64 (mkRat 1 R) := roundF64_nonneg (by rw [hmk]; positivity)
  have hd1 : roundF64 (mkRat 1 R) ≤ (1 / ((R : Nat) : ℚ)) * (1 + 1 / 9007199254740992) := by
    have habs := abs_roundF64_sub hxne
    rw [heps, abs_of_pos hx0] at habs
    have h2 := (abs_le.mp habs).2
    rw [hmk]
    nlinarith [h2]
  unfold f64delta
  rw [qmul_eq, qOfInt_eq]
  obtain ⟨y, hy⟩ : ∃ y, roundF64 (mkRat 1 R) * ((P : Int) : ℚ) = y := ⟨_, rfl⟩
  rw [hy]
  have hy0 : 0 ≤ y := hy ▸ mul_nonneg hd0 hp0
  have hyb : y ≤ (1 + 1 / 9007199254740992) * (1 - 1 / 4294967295) := by
    have s1 : y ≤ ((1 / ((R : Nat) : ℚ)) * (1 + 1 / 9007199254740992)) * ((P : Int) : ℚ) :=
      hy ▸ mul_le_mul_of_nonneg_right hd1 hp0
    have s2 : ((1 / ((R : Nat) : ℚ)) * (1 + 1 / 9007199254740992)) * ((P : Int) : ℚ)
        ≤ ((1 / ((R : Nat) : ℚ)) * (1 + 1 / 9007199254740992)) * (((R : Nat) : ℚ) - 1) :=
      mul_le_mul_of_nonneg_left hpr (by positivity)
    have hsub : (1 : ℚ) - 1 / ((R : Nat) : ℚ) = (((R : Nat) : ℚ) - 1) / ((R : Nat) : ℚ) := by
      rw [sub_div, div_self hrne]
    have s3 : ((1 / ((R : Nat) : ℚ)) * (1 + 1 / 9007199254740992)) * (((R : Nat) : ℚ) - 1)
        = (1 + 1 / 9007199254740992) * (1 - 1 / ((R : Nat) : ℚ)) := by
      rw [hsub]
      ring
    have s4 : (1 : ℚ) / 4294967295 ≤ 1 / ((R : Nat) : ℚ) :=
      one_div_le_one_div_of_le hrpos hrle
    have s5 : (1 + 1 / 9007199254740992) * (1 - 1 / ((R : Nat) : ℚ))
        ≤ (1 + 1 / 9007199254740992) * (1 - 1 / 4294967295) := by
      apply mul_le_mul_of_nonneg_left _ (by norm_num)
      linarith
    linarith [s1, s2, s3.le, s3.ge]
  by_cases hy0' : y = 0
  · rw [hy0', roundF64_zero]
    norm_num
  · have hypos : 0 < y := lt_of_le_of_ne hy0 (Ne.symm hy0')
    have habs := abs_roundF64_sub hy0'
    rw [heps, abs_of_pos hypos] at habs
    have hup := (abs_le.mp habs).2
    have hfin : roundF64 y ≤ y * (1 + 1 / 9007199254740992) := by nlinarith [hup]
    nlinarith [hfin, hyb, hypos]

/-- With `0 ≤ playbackRate < destinationRate ≤ 2³² - 1` the `i16`
truncation of the computed `f64` delta is zero. -/
lemma f64delta_trunc_zero {P : Int} {R : Nat} (hP : 0 ≤ P) (hPR : P < (R : Int))
    (hR32 : R ≤ 4294967295) : satI16 (ratTrunc (f64delta P R)) = 0 := by
  rw [ratTrunc_eq_zero (f64delta_nonneg hP) (f64delta_lt_one hP hPR hR32)]
  decide

/-- The truncated unit delta. -/
lemma satI16_ratTrunc_one : satI16 (ratTrunc 1) = 1 := by
  rw [show (1 : ℚ) = (((1 : Int)) : ℚ) from by norm_num, ratTrunc_intCast]
  decide

/-- With the computed `f64` delta exactly 1 and an integer starting
position, the faithful generation loop agrees with the exact-rational loop
at matching rates: every accumulated position is the exact integer and both
sides truncate alike. -/
lemma renderRunF_eq_renderRun {R : Nat} (hR : 1 ≤ R) :
    ∀ (xs : List Int) (m : Nat) (v : Voice), m + xs.length < 2 ^ 53 →
    renderRunF 1 v ((m : Nat) : ℚ) xs = renderRun (R : Int) R v m xs := by
  intro xs
  induction xs with
  | nil =>
      intro m v _
      rfl
  | cons x xs ih =>
      intro m v hm
      have hm' : m + xs.length + 1 < 2 ^ 53 := by
        simp only [List.length_cons] at hm
        omega
      have hRne : ((R : Nat) : Int) ≠ 0 := by omega
      have hd : satI16 (ratTrunc (1 : ℚ)) = deltaI16 (R : Int) R := by
        rw [deltaI16_self hR]
        exact satI16_ratTrunc_one
      have hp : satI16 (ratTrunc ((m : Nat) : ℚ)) = posI16 m (R : Int) R := by
        unfold posI16
        rw [if_neg (by omega)]
        rw [Int.mul_tdiv_cancel _ hRne]
        rw [ratTrunc_natCast]
      unfold renderRunF renderRun
      rw [hd, hp]
      cases hfr : frame v (posI16 m (R : Int) R) (deltaI16 (R : Int) R) with
      | error e => rfl
      | ok pr =>
          obtain ⟨opt, v1⟩ := pr
          cases opt with
          | none => rfl
          | some f =>
              simp only []
              rw [show qadd ((m : Nat) : ℚ) 1 = (((m + 1 : Nat)) : ℚ) from by
                rw [qadd_eq]; push_cast; ring]
              rw [roundF64_natCast (show m + 1 < 2 ^ 53 by omega)]
              rw [ih (m + 1) ((update_and_get v1 f).2) (by omega)]

/-- With truncated delta 1 the faithful position publication is the exact
one at matching rates. -/
lemma publishPosF_one {v : Voice} {R : Nat} (hR : 1 ≤ R) :
    publishPosF v 1 = publishPos v (R : Int) R := by
  unfold publishPosF publishPos
  rw [deltaI16_self hR, satI16_ratTrunc_one]

/-- The faithful publication writes `index * truncatedDelta` when the
handle is alive. -/
lemma publishPosF_pos {v : Voice} {d : ℚ} (h : v.alive = true) :
    (publishPosF v d).shared.position =
      u32OfI16 (rendererPosition v (satI16 (ratTrunc d))) := by
  unfold publishPosF
  rw [if_pos (by simp [h])]

/-- Claim C1 (amended): enqueuing seekTo(T) and performing one render call
with an empty output buffer at an unchanged destination rate equal to the
playback rate (voice unpaused and alive, T ≥ 0 and T * rate within the i16
range) publishes exactly T to the shared status block — the value
`Music::position` then reinterprets through `f32::from_bits` — provided the
computed `f64` delta `(1.0 / R) * R` is exactly 1, which holds for many
rates (every power of two, 10, 1000, …) but not all (at R = 49 the product
is `1 - 2⁻⁵³`, truncating to 0).  When `0 ≤ playbackRate < destinationRate`
the truncated `f64` delta is always 0 and the published value is 0
regardless of T, so the reported position is not T. -/
theorem seekTo_render_publishes :
    (∀ (v : Voice) (T : Int) (R : Nat),
      v.queue = [.SeekTo T] → v.last_sample_rate = R → v.paused = false →
      v.alive = true → v.settings.playback_rate = (R : Int) →
      f64delta (R : Int) R = 1 →
      1 ≤ R → (R : Int) ≤ 32767 → 0 ≤ T → T * (R : Int) ≤ 32767 →
      ∃ v', render_monoF v R [] = .ok (v', []) ∧
        Music.positionBits v' = T.toNat) ∧
    (∀ (v : Voice) (T : Int) (R : Nat),
      v.queue = [.SeekTo T] → v.last_sample_rate = R → v.paused = false →
      v.alive = true → 1 ≤ v.settings.playback_rate →
      v.settings.playback_rate < (R : Int) → R ≤ 4294967295 →
      ∃ v', render_monoF v R [] = .ok (v', []) ∧ Music.positionBits v' = 0) := by
  constructor
  · intro v T R hq hr hp hal hP hfd hR hR16 hT hTR
    have hRne : ((R : Nat) : Int) ≠ 0 := by omega
    have hTR0 : 0 ≤ T * (R : Int) := mul_nonneg hT (by positivity)
    have hTT : T ≤ 32767 :=
      le_trans (le_mul_of_one_le_right hT (by exact_mod_cast hR)) hTR
    have hseek : applyCommand R { v with queue := ([] : List MusicCommand) } (.SeekTo T) =
        .ok { v with queue := [], index := T.toNat } := by
      unfold applyCommand
      simp only []
      unfold i16div
      rw [hP]
      have e1 : wrap16 ((R : Nat) : Int) = (R : Int) := wrap16_eq_self (by omega) (by omega)
      rw [e1]
      have e2 : wrap16 (T * (R : Int)) = T * R := wrap16_eq_self (by omega) (by omega)
      rw [e2]
      rw [if_neg (by rintro (hc | ⟨hc1, hc2⟩) <;> omega)]
      rw [Int.mul_tdiv_cancel T hRne]
      simp only []
      rw [usizeOfI16_eq_toNat hT hTT]
    have hprep : prepare v R = .ok { v with queue := [], index := T.toNat } := by
      unfold prepare drain
      rw [rateAdapt_same hr, hq]
      simp only [List.foldlM_cons, List.foldlM_nil]
      rw [hseek]
      rfl
    refine ⟨publishPos { v with queue := [], index := T.toNat }
      ((R : Nat) : Int) R, ?_, ?_⟩
    · unfold render_monoF
      rw [hprep]
      simp only []
      rw [if_neg (by simp [hp])]
      rw [hP, hfd]
      simp only [renderRunF]
      rw [publishPosF_one hR]
    · unfold Music.positionBits
      rw [publishPos_pos (by exact hal)]
      unfold rendererPosition
      simp only []
      rw [deltaI16_self hR, mul_one]
      rw [Int.toNat_of_nonneg hT]
      have eT : wrap16 T = T := wrap16_eq_self (by omega) (by omega)
      rw [eT, eT]
      rw [u32OfI16_eq hT hTT]
  · intro v T R hq hr hp hal hP1 hPR hR32
    have hz : satI16 (ratTrunc (f64delta v.settings.playback_rate R)) = 0 :=
      f64delta_trunc_zero (by omega) hPR hR32
    have hseek : ∃ idx, applyCommand R { v with queue := ([] : List MusicCommand) }
        (.SeekTo T) = .ok { v with queue := [], index := idx } := by
      unfold applyCommand
      simp only []
      unfold i16div
      rw [if_neg (by rintro (hc | ⟨hc1, hc2⟩) <;> omega)]
      exact ⟨_, rfl⟩
    obtain ⟨idx, hseek⟩ := hseek
    have hprep : prepare v R = .ok { v with queue := [], index := idx } := by
      unfold prepare drain
      rw [rateAdapt_same hr, hq]
      simp only [List.foldlM_cons, List.foldlM_nil]
      rw [hseek]
      rfl
    refine ⟨publishPosF { v with queue := [], index := idx }
      (f64delta v.settings.playback_rate R), ?_, ?_⟩
    · unfold render_monoF
      rw [hprep]
      simp only []
      rw [if_neg (by simp [hp])]
      simp only [renderRunF]
    · unfold Music.positionBits
      rw [publishPosF_pos (by exact hal)]
      rw [hz]
      unfold rendererPosition
      simp only []
      rw [mul_zero]
      have z : wrap16 0 = 0 := by decide
      rw [z]
      rw [u32OfI16_eq (by omega) (by omega)]
      rfl

/-- Counterexample to C1 as stated: on a fresh default voice (playback
rate 1), resume, seekTo(100), then one render call at destination rate 10
publishes 0 to the shared status block, not 100 — the computed `f64` delta
0.1 truncates to 0 under `as i16`, so the published `index * delta`
collapses to 0, far beyond any integer-truncation tolerance. -/
theorem seekTo_zero_delta_cex :
    ((do
      let v1 ← Music.play (Music.new clip5 MusicParams.default)
      let v2 ← Music.seek_to v1 100
      render_monoF v2 10 [] : Except Unit (Voice × List Int)).toOption.map
        (fun p => Music.positionBits p.1)) = some 0 ∧ (0 : Nat) ≠ 100 :=
  ⟨by decide, by decide⟩

/-- An unpaused default voice with SeekTo(5) queued (rates equal to 1). -/
def voiceSeek5 : Voice :=
  { Music.new clip5 MusicParams.default with queue := [.SeekTo 5], paused := false }

/-- An unpaused default voice with SeekTo(100) queued (playback rate 1). -/
def voiceSeek100 : Voice :=
  { Music.new clip5 MusicParams.default with queue := [.SeekTo 100], paused := false, last_sample_rate := 10 }

/-- Witness for the amended C1 at concrete inputs: seekTo(5) at equal
rates 1 (where the computed `f64` delta is exactly 1) publishes exactly 5;
seekTo(100) at destination rate 10 over playback rate 1 publishes 0. -/
theorem seekTo_render_publishes_witness :
    (∃ v', render_monoF voiceSeek5 1 [] = .ok (v', []) ∧
      Music.positionBits v' = (5 : Int).toNat) ∧
    (∃ v', render_monoF voiceSeek100 10 [] = .ok (v', []) ∧
      Music.positionBits v' = 0) :=
  ⟨seekTo_render_publishes.1 voiceSeek5 5 1 rfl rfl rfl rfl rfl (by decide)
      (by decide) (by decide) (by decide) (by decide),
   seekTo_render_publishes.2 voiceSeek100 100 10 rfl rfl rfl rfl (by decide)
      (by decide) (by decide)⟩

/-- Claim C3 (amended): the divisor of the index resynchronization in the
loop-wrap branch is the i16 truncation of `playbackRate / destinationRate`;
whenever `0 ≤ playbackRate < destinationRate` that truncation is 0, and a
render call whose first generated sample takes the loop-wrap branch
performs the division `position / 0` and faults (panic) instead of
completing — so the claim's nonzero-divisor safety property fails exactly
in the configurations the claim itself notes. -/
theorem wrap_divisor_zero_faults :
    ∀ (v : Voice) (R : Nat) (x : Int) (xs : List Int),
    v.queue = [] → v.last_sample_rate = R → v.paused = false →
    0 ≤ v.settings.loop_mix_time →
    0 ≤ v.settings.playback_rate → v.settings.playback_rate < (R : Int) →
    v.clip.sample (posI16 v.index v.settings.playback_rate R) = none →
    deltaI16 v.settings.playback_rate R = 0 ∧
    render_mono v R (x :: xs) = .error () := by
  intro v R x xs hq hr hp hL hP0 hPR hnone
  have hd : deltaI16 v.settings.playback_rate R = 0 := deltaI16_zero hP0 hPR
  refine ⟨hd, ?_⟩
  unfold render_mono
  rw [prepare_noop hq hr]
  simp only []
  rw [if_neg (by simp [hp])]
  unfold renderRun
  rw [hd, frame_wrap_div_zero hnone hL]

/-- Looping parameter set (loopMixTime = 0, playback rate 1). -/
def paramsLoop0 : MusicParams :=
  { loop_mix_time := 0, amplifier := 1, playback_rate := 1, command_buffer_size := 16 }

/-- Counterexample to C3 as stated: fresh voice on a 5-tick looping clip
(loopMixTime = 0, playback rate 1), resume, seekTo(5), then a render call
at destination rate 10 reaches the loop-wrap branch with truncated delta 0
and faults on the division (the render call returns the embedded panic). -/
theorem wrap_divisor_zero_cex :
    (do
      let v1 ← Music.play (Music.new clip5 paramsLoop0)
      let v2 ← Music.seek_to v1 5
      render_mono v2 10 [0]) = (.error () : Except Unit (Voice × List Int)) := rfl

/-- An unpaused voice on a looping 5-tick clip, cursor past the end, about
to take the loop-wrap branch at destination rate 10. -/
def voiceWrap : Voice :=
  { Music.new clip5 paramsLoop0 with paused := false, index := 50, last_sample_rate := 10 }

/-- Witness for the amended C3 at a concrete input: with playback rate 1
and destination rate 10 the truncated delta is 0 and the render call
faults in the loop-wrap branch. -/
theorem wrap_divisor_zero_faults_witness :
    deltaI16 voiceWrap.settings.playback_rate 10 = 0 ∧
    render_mono voiceWrap 10 [0] = .error () :=
  wrap_divisor_zero_faults voiceWrap 10 0 [] rfl rfl rfl (by decide) (by decide)
    (by decide) (by decide)

/-- Claim C2 (amended): for a clip of length N with loopMixTime = L
(0 ≤ L < N) and playbackRate = destinationRate with the computed `f64`
delta `(1.0 / R) * R` exactly 1 — true for many rates, but not all: the
spec example's rates 1 and 1000 give delta 1/1000, and even matching rates
49 give `1 - 2⁻⁵³` — a single unpaused render call of N+L+1 samples
starting from index 0 generates a sample for every buffer slot with no
early termination; after the (N+1)-th generated sample (tick position N)
the cursor has wrapped to index L, and the call ends with index 2L. -/
theorem loop_wrap_delta_one :
    ∀ (v : Voice) (N L R : Nat) (buf : List Int),
    v.clip.length = N → v.settings.loop_mix_time = (L : Int) →
    v.settings.playback_rate = (R : Int) → v.fade_time = 0 → v.index = 0 →
    f64delta (R : Int) R = 1 →
    L < N → N + L ≤ 32767 → 1 ≤ R → buf.length = N + L + 1 →
    (∃ vf out, renderRunF 1 v 0 buf = .ok (vf, out, N + L + 1) ∧
      out.length = N + L + 1 ∧ vf.index = 2 * L) ∧
    (∀ buf2 : List Int, buf2.length = N + 1 →
      ∃ vf out, renderRunF 1 v 0 buf2 = .ok (vf, out, N + 1) ∧
        vf.index = L) ∧
    (v.paused = false → v.queue = [] → v.last_sample_rate = R →
      ∃ vf out, render_monoF v R buf = .ok (vf, out) ∧
        out.length = N + L + 1) := by
  intro v N L R buf hN hL hP hf hi hfd hLN hb hR hlen
  have hpow : (2 : Nat) ^ 53 = 9007199254740992 := by norm_num
  have hcast : (0 : ℚ) = ((0 : Nat) : ℚ) := by norm_num
  have key : ∀ (bufx : List Int) (k : Nat), k ≤ L → bufx.length = N + k + 1 →
      ∃ vf out, renderRun (R : Int) R v 0 bufx = .ok (vf, out, N + k + 1) ∧
        out.length = N + k + 1 ∧ vf.index = k + L := by
    intro bufx k hkL hlenx
    have hxs : (bufx.take N).length = N := by
      rw [List.length_take]
      omega
    have hys : (bufx.drop N).length = k + 1 := by
      rw [List.length_drop]
      omega
    obtain ⟨d, ds, hds⟩ : ∃ d ds, bufx.drop N = d :: ds := by
      cases hd : bufx.drop N with
      | nil => rw [hd] at hys; simp at hys
      | cons d ds => exact ⟨d, ds, rfl⟩
    have hdsl : ds.length = k := by
      rw [hds] at hys
      simpa using hys
    obtain ⟨lo1, out1, hrun1, hlen1⟩ := renderRun_norm (bufx.take N) 0 v hf
      (by
        intro j hj
        rw [hxs] at hj
        rw [Nat.zero_add, posI16_self hR (by omega)]
        rw [sample_eq_some (by positivity) (by rw [hN]; exact_mod_cast hj)]
        simp)
      (by rw [hi, hxs]; unfold USIZE; omega)
    obtain ⟨lo2, out2, hrun2, hlen2⟩ := renderRun_wrapZone ds d
      (0 + (bufx.take N).length)
      { v with index := v.index + (bufx.take N).length, last_output := lo1 }
      (by simpa using hN) (by simpa using hL) hR hLN (by omega) (by omega) hb
    have happ := renderRun_append (bufx.take N) hrun1 hrun2
    rw [← hds, List.take_append_drop] at happ
    rw [hxs, hdsl] at happ
    have hcnt : N + (k + 1) = N + k + 1 := by omega
    rw [hcnt] at happ
    refine ⟨_, out1 ++ out2, happ, ?_, ?_⟩
    · rw [List.length_append, hlen1, hlen2, hxs, hdsl]
      omega
    · simp only []
      omega
  refine ⟨?_, ?_, ?_⟩
  · obtain ⟨vf, out, h1, h2, h3⟩ := key buf L le_rfl hlen
    rw [hcast]
    rw [renderRunF_eq_renderRun hR buf 0 v (by rw [hpow]; omega)]
    exact ⟨vf, out, h1, h2, by omega⟩
  · intro buf2 hlen2
    obtain ⟨vf, out, h1, h2, h3⟩ := key buf2 0 (by omega) (by omega)
    rw [hcast]
    rw [renderRunF_eq_renderRun hR buf2 0 v (by rw [hpow]; omega)]
    exact ⟨vf, out, h1, by omega⟩
  · intro hp hq hr
    obtain ⟨vf, out, h1, h2, h3⟩ := key buf L le_rfl hlen
    have hp0 : roundF64 (qmul (roundF64 (qOfNat 0)) 1) = ((0 : Nat) : ℚ) := by
      rw [show qOfNat 0 = (0 : ℚ) from by rw [qOfNat_eq]; norm_num]
      rw [roundF64_zero]
      rw [show qmul 0 1 = (0 : ℚ) from by rw [qmul_eq]; ring]
      rw [roundF64_zero]
      norm_num
    refine ⟨publishPosF vf 1, out, ?_, h2⟩
    unfold render_monoF
    rw [prepare_noop hq hr]
    simp only []
    rw [if_neg (by simp [hp])]
    rw [hP, hfd, hi]
    rw [hp0]
    rw [renderRunF_eq_renderRun hR buf 0 v (by rw [hpow]; omega)]
    rw [h1]

/-- Equal playback and destination rates 49 with loopMixTime 1. -/
def paramsWF : MusicParams :=
  { loop_mix_time := 1, amplifier := 1, playback_rate := 49, command_buffer_size := 16 }

/-- An unpaused voice on the looping 2-tick clip at matching rates 49. -/
def voiceWF : Voice :=
  { Music.new clip3 paramsWF with paused := false, last_sample_rate := 49 }

/-- Counterexample to C2 as stated: matching playback and destination
rates of 49 are a `delta = 1 tick per sample` configuration in the claim's
reading, but the IEEE product `(1.0 / 49.0) * 49.0` is `1 - 2⁻⁵³` and its
`as i16` truncation is 0: on the looping 2-tick clip with loopMixTime 1
(N = 2, L = 1) the N+L+1-sample render call reaches the loop-wrap branch
at its fourth sample (truncated positions run 0, 0, 1, 2) and divides by
the zero delta — the call panics instead of producing output for the whole
buffer with the cursor wrapped to L. -/
theorem loop_wrap_cex :
    f64delta 49 49 = mkRat 9007199254740991 9007199254740992 ∧
    f64delta 49 49 ≠ 1 ∧
    satI16 (ratTrunc (f64delta 49 49)) = 0 ∧
    voiceWF.clip.length = 2 ∧ voiceWF.settings.loop_mix_time = 1 ∧
    voiceWF.settings.playback_rate = 49 ∧ voiceWF.paused = false ∧
    voiceWF.index = 0 ∧
    render_monoF voiceWF 49 [0, 0, 0, 0] = .error () :=
  ⟨by decide, by decide, by decide, rfl, rfl, rfl, rfl, rfl, rfl⟩

/-- A 3-tick clip for the C2 witness. -/
def clipW2 : AudioClip := ⟨3, fun _ => ⟨1, 1⟩⟩

/-- loopMixTime 1, playback rate 1 (equal to the destination rate 1). -/
def paramsW2 : MusicParams :=
  { loop_mix_time := 1, amplifier := 1, playback_rate := 1, command_buffer_size := 16 }

/-- An unpaused voice on the 3-tick looping clip at matching rates 1. -/
def voiceW2 : Voice := { Music.new clipW2 paramsW2 with paused := false }

/-- Witness for the amended C2 at N = 3, L = 1, R = 1 (where the computed
`f64` delta is exactly 1): a 5-sample run generates all 5 samples and ends
at index 2; the 4-sample prefix ends at index 1 (the cursor wrapped to L
at tick N); the full render call fills the buffer. -/
theorem loop_wrap_delta_one_witness :
    (∃ vf out, renderRunF 1 voiceW2 0 [0, 0, 0, 0, 0] =
      .ok (vf, out, 3 + 1 + 1) ∧ out.length = 3 + 1 + 1 ∧ vf.index = 2 * 1) ∧
    (∃ vf out, renderRunF 1 voiceW2 0 [0, 0, 0, 0] =
      .ok (vf, out, 3 + 1) ∧ vf.index = 1) ∧
    (∃ vf out, render_monoF voiceW2 1 [0, 0, 0, 0, 0] = .ok (vf, out) ∧
      out.length = 3 + 1 + 1) :=
  have h := loop_wrap_delta_one voiceW2 3 1 1 [0, 0, 0, 0, 0] rfl rfl rfl rfl rfl
    (by decide) (by omega) (by omega) (by omega) (by decide)
  ⟨h.1, h.2.1 [0, 0, 0, 0] (by decide), h.2.2 rfl rfl rfl⟩

/-- Claim C8 (amended): for an unpaused render call on a non-looping clip
of constant value v with amplifier 2, starting at index 0 with matching
playback and destination rates whose computed `f64` delta `(1.0 / R) * R`
is exactly 1, no active fade and a zero low-pass coefficient, a buffer of
N > length samples gets exactly `2*v` added (with 16-bit wrap) into each of
its first `length` slots and every remaining slot is left completely
untouched — generation ends the stream at tick `length` without writing
silence.  When the delta falls short of 1 (mismatched rates, or matching
rates like 49 whose product rounds to `1 - 2⁻⁵³`), positions advance slower
than one tick per sample and slots beyond the clip length can be written. -/
theorem amp_render_adds :
    ∀ (v : Voice) (len R : Nat) (c : Int) (buf : List Int),
    v.clip.length = len → (∀ p, v.clip.data p = ⟨c, c⟩) →
    v.settings.loop_mix_time < 0 → v.settings.amplifier = 2 →
    v.low_pass = 0 → v.fade_time = 0 → v.index = 0 → v.paused = false →
    v.queue = [] → v.last_sample_rate = R → v.settings.playback_rate = (R : Int) →
    f64delta (R : Int) R = 1 →
    1 ≤ R → -8191 ≤ c → c ≤ 8191 → len ≤ 32767 → len < buf.length →
    buf.length < 2 ^ 53 →
    ∃ vf, render_monoF v R buf =
      .ok (vf, (buf.take len).map (fun b => wrap16 (b + 2 * c)) ++ buf.drop len) := by
  intro v len R c buf hN hdata hnl hamp hlp hf hi hp hq hr hP hfd hR hc1 hc2 hlen32 hbuf
    hbig
  have hpow : (2 : Nat) ^ 53 = 9007199254740992 := by norm_num
  have hxs : (buf.take len).length = len := by
    rw [List.length_take]
    omega
  obtain ⟨d, ds, hds⟩ : ∃ d ds, buf.drop len = d :: ds := by
    cases hd : buf.drop len with
    | nil =>
        have := List.length_drop len buf ▸ congrArg List.length hd
        simp at this
        omega
    | cons d ds => exact ⟨d, ds, rfl⟩
  obtain ⟨lo, hrun1⟩ := renderRun_const (buf.take len) 0 v hN hdata hnl hamp hlp hf hR
    hc1 hc2 (by omega) hlen32 (by rw [hi, hxs]; unfold USIZE; omega)
  have hstop : renderRun (R : Nat) R
      { v with index := v.index + (buf.take len).length, last_output := lo }
      (0 + (buf.take len).length) (d :: ds) =
      .ok ({ { v with index := v.index + (buf.take len).length, last_output := lo }
        with paused := true }, d :: ds, 0) := by
    refine renderRun_stop ?_ (by simpa using hnl)
    rw [show (0 + (buf.take len).length) = len from by omega]
    rw [posI16_self hR (by omega)]
    refine sample_eq_none (Or.inr ?_)
    simp only []
    rw [hN]
  have happ := renderRun_append (buf.take len) hrun1 hstop
  rw [← hds, List.take_append_drop] at happ
  have hp0 : roundF64 (qmul (roundF64 (qOfNat 0)) 1) = ((0 : Nat) : ℚ) := by
    rw [show qOfNat 0 = (0 : ℚ) from by rw [qOfNat_eq]; norm_num]
    rw [roundF64_zero]
    rw [show qmul 0 1 = (0 : ℚ) from by rw [qmul_eq]; ring]
    rw [roundF64_zero]
    norm_num
  have hfin : render_monoF v R buf =
      .ok (publishPosF ({ { v with index := v.index + (buf.take len).length, last_output := lo } with paused := true }) 1,
        (buf.take len).map (fun b => wrap16 (b + 2 * c)) ++ buf.drop len) := by
    unfold render_monoF
    rw [prepare_noop hq hr]
    simp only []
    rw [if_neg (by simp [hp])]
    rw [hP, hfd, hi]
    rw [hp0]
    rw [renderRunF_eq_renderRun hR buf 0 v (by rw [hpow]; omega)]
    rw [happ]
    rw [hds]
    simp only []
    rw [hi]
  exact ⟨_, hfin⟩

/-- Non-looping, amplifier 2, playback rate 49. -/
def paramsC8 : MusicParams :=
  { loop_mix_time := -1, amplifier := 2, playback_rate := 49, command_buffer_size := 16 }

/-- An unpaused voice on the constant-3 clip of length 2, amplifier 2, at
matching playback and destination rates 49. -/
def voiceC8 : Voice := { Music.new clip3 paramsC8 with paused := false, last_sample_rate := 49 }

/-- Counterexample to C8 as stated: an ordinary unpaused render call at
matching rates 49 on the non-looping length-2 constant-3 clip with
amplifier 2.  The computed `f64` delta is `1 - 2⁻⁵³`, so the truncated
positions run 0, 0, 1, 2 and the call writes 2*3 = 6 into the first three
slots of a 4-sample buffer: a slot past the clip length is written, not
left untouched as the claim demands. -/
theorem amp_render_overrun_cex :
    (render_monoF voiceC8 49 [0, 0, 0, 0]).toOption.map (fun p => p.2) =
      some [6, 6, 6, 0] ∧
    ([6, 6, 6, 0] : List Int) ≠ [6, 6, 0, 0] :=
  ⟨by decide, by decide⟩

/-- Example-3 parameters with matching rates (playback rate 2). -/
def paramsC8W : MusicParams :=
  { loop_mix_time := -1, amplifier := 2, playback_rate := 2, command_buffer_size := 16 }

/-- An unpaused voice on the constant-3 clip, amplifier 2, at matching
playback and destination rates 2. -/
def voiceC8W : Voice :=
  { Music.new clip3 paramsC8W with paused := false, last_sample_rate := 2 }

/-- Witness for the amended C8: at matching rates 2 (computed `f64` delta
exactly 1) on the length-2 constant-3 clip with amplifier 2, a 4-sample
render adds 6 to the first two slots and leaves the last two untouched. -/
theorem amp_render_adds_witness :
    ∃ vf, render_monoF voiceC8W 2 [10, 20, 30, 40] =
      .ok (vf, (([10, 20, 30, 40] : List Int).take 2).map
        (fun b => wrap16 (b + 2 * 3)) ++ ([10, 20, 30, 40] : List Int).drop 2) :=
  amp_render_adds voiceC8W 2 2 3 [10, 20, 30, 40] rfl (fun p => rfl) (by decide)
    rfl rfl rfl rfl rfl rfl rfl rfl (by decide) (by decide) (by decide)
    (by decide) (by decide) (by decide) (by decide)

end Sasa

